import Mathlib

/-!
Shallow embedding of the core data pipeline of the Stock_Analysis_App
repository (backend services `StockService`, `DataFetcher`,
`FundamentalFetcher`, `CacheService`), together with proofs checking the
natural-language specification against the code.

Modelling conventions:
* A JavaScript `Date` is represented by its UTC timestamp in milliseconds
  (`Nat`).  Database `DATE` columns hold UTC-midnight timestamps.
  `getDateKey` (`date.toISOString().split('T')[0]`, the UTC calendar day)
  is represented by the day index `ms / 86400000`, a faithful injective
  image of the `"YYYY-MM-DD"` string.
* JavaScript `number` arithmetic is modelled exactly over `ℚ`
  (real-valued semantics); `BigInt` is `Int`.
* I/O effects (Redis, Postgres, the FMP HTTP API) are modelled by explicit
  state / outcome parameters: the cache is an association list keyed by the
  cache-key string, the store is a list of rows, and an API call is an
  `ApiResponse` value describing what the network returned.
-/

namespace StockApp

/-- Milliseconds per day: the divisor in the code's day computations. -/
def dayMs : Nat := 86400000

/-- JS `String.prototype.toUpperCase`, over the character list (Lean's own
`String.toUpper` is not kernel-reducible, which the concrete witnesses
need). -/
def jsToUpper (s : String) : String := String.mk (s.data.map Char.toUpper)

/-- JS `String.prototype.trim`. -/
def jsTrim (s : String) : String :=
  String.mk (((s.data.dropWhile Char.isWhitespace).reverse.dropWhile
    Char.isWhitespace).reverse)

/-- The closed timeframe enum `'5Y' | '1Y' | 'YTD' | '1M' | '1W'`. -/
inductive Timeframe
  | fiveY
  | oneY
  | ytd
  | oneM
  | oneW
deriving DecidableEq

/-- String form of a timeframe, as it appears at the API boundary. -/
def Timeframe.str : Timeframe → String
  | .fiveY => "5Y"
  | .oneY => "1Y"
  | .ytd => "YTD"
  | .oneM => "1M"
  | .oneW => "1W"

/-- `VALID_TIMEFRAMES` from stockService. -/
def VALID_TIMEFRAMES : List String := ["5Y", "1Y", "YTD", "1M", "1W"]

/-- `StockService.isValidTimeframe`: membership after uppercasing. -/
def isValidTimeframe (timeframe : String) : Bool :=
  VALID_TIMEFRAMES.contains (jsToUpper timeframe)

/-- One row of the `stock_prices` table (Prisma `StockPrice`, sans the
surrogate id/timestamps, which no modelled code reads). -/
structure StockPriceRow where
  symbol : String
  date : Nat
  open_ : ℚ
  high : ℚ
  low : ℚ
  close : ℚ
  volume : Int
  change : ℚ
  changePercent : ℚ
  vwap : ℚ
deriving DecidableEq

/-- Application-level `StockPriceData` (stockService). -/
structure StockPriceData where
  date : Nat
  open_ : ℚ
  high : ℚ
  low : ℚ
  close : ℚ
  volume : Int
  change : ℚ
  changePercent : ℚ
  vwap : ℚ
deriving DecidableEq

/-- `RatioData` (stockService). -/
structure RatioData where
  date : Nat
  ratio : ℚ
  symbol1Price : ℚ
  symbol2Price : ℚ
deriving DecidableEq

/-- `StockServiceError` (message, code, optional symbol). -/
structure StockServiceError where
  message : String
  code : String
  symbol : Option String
deriving DecidableEq

/-! ### A stable sort by a `Nat` key

Models `array.sort((a, b) => a.date.getTime() - b.date.getTime())` and the
SQL `ORDER BY date ASC`.  Insertion sort is stable, matching the modern
JavaScript guarantee; everywhere the repository sorts, the keys turn out to
be pairwise distinct, so stability is never actually load-bearing. -/

/-- Insert `a` in front of the first element with a key not smaller. -/
def insertByKey (key : α → Nat) (a : α) : List α → List α
  | [] => [a]
  | b :: l => if key a ≤ key b then a :: b :: l else b :: insertByKey key a l

/-- Sort a list ascending by `key`. -/
def sortByKey (key : α → Nat) : List α → List α
  | [] => []
  | a :: l => insertByKey key a (sortByKey key l)

theorem insertByKey_perm (key : α → Nat) (a : α) (l : List α) :
    List.Perm (insertByKey key a l) (a :: l) := by
  induction l with
  | nil => simp [insertByKey]
  | cons b t ih =>
    simp only [insertByKey]
    split
    · exact List.Perm.refl _
    · exact (List.Perm.cons b ih).trans (List.Perm.swap a b t)

theorem sortByKey_perm (key : α → Nat) (l : List α) : List.Perm (sortByKey key l) l := by
  induction l with
  | nil => simp [sortByKey]
  | cons a t ih =>
    exact (insertByKey_perm key a (sortByKey key t)).trans (List.Perm.cons a ih)

theorem insertByKey_sorted (key : α → Nat) (a : α) (l : List α)
    (h : l.Pairwise (fun x y => key x ≤ key y)) :
    (insertByKey key a l).Pairwise (fun x y => key x ≤ key y) := by
  induction l with
  | nil => simp [insertByKey]
  | cons b t ih =>
    simp only [insertByKey]
    split
    · rename_i hab
      refine List.Pairwise.cons ?_ h
      intro x hx
      rcases List.mem_cons.1 hx with rfl | hx
      · exact hab
      · exact le_trans hab (List.rel_of_pairwise_cons h hx)
    · rename_i hab
      have hba : key b ≤ key a := le_of_not_le hab
      refine List.Pairwise.cons ?_ (ih (List.Pairwise.sublist (List.sublist_cons_self b t) h))
      intro x hx
      have hx' := (insertByKey_perm key a t).mem_iff.1 hx
      rcases List.mem_cons.1 hx' with rfl | hx'
      · exact hba
      · exact List.rel_of_pairwise_cons h hx'

theorem sortByKey_sorted (key : α → Nat) (l : List α) :
    (sortByKey key l).Pairwise (fun x y => key x ≤ key y) := by
  induction l with
  | nil => simp [sortByKey]
  | cons a t ih => exact insertByKey_sorted key a _ ih

theorem sortByKey_eq_of_sorted (key : α → Nat) (l : List α)
    (h : l.Pairwise (fun x y => key x ≤ key y)) : sortByKey key l = l := by
  induction l with
  | nil => rfl
  | cons a t ih =>
    have ht := List.Pairwise.sublist (List.sublist_cons_self a t) h
    simp only [sortByKey, ih ht]
    cases t with
    | nil => rfl
    | cons b u =>
      have hab : key a ≤ key b := List.rel_of_pairwise_cons h (List.mem_cons_self b u)
      simp [insertByKey, hab]

/-- Two lists that are permutations of each other and both strictly sorted
by `key` are equal. -/
theorem eq_of_perm_of_strictSorted (key : α → Nat) (l₁ l₂ : List α)
    (hp : List.Perm l₁ l₂)
    (h₁ : l₁.Pairwise (fun x y => key x < key y))
    (h₂ : l₂.Pairwise (fun x y => key x < key y)) : l₁ = l₂ := by
  haveI : IsAntisymm α (fun x y => key x < key y) :=
    ⟨fun a b h h' => absurd (h.trans h') (lt_irrefl _)⟩
  exact List.eq_of_perm_of_sorted hp h₁ h₂

/-- A sorted list whose keys are pairwise distinct is strictly sorted. -/
theorem strict_of_sorted_of_ne (key : α → Nat) (l : List α)
    (hs : l.Pairwise (fun x y => key x ≤ key y))
    (hne : l.Pairwise (fun x y => key x ≠ key y)) :
    l.Pairwise (fun x y => key x < key y) :=
  (hs.and hne).imp (fun h => lt_of_le_of_ne h.1 h.2)

/-- Sorting a list with pairwise-distinct keys yields a strictly sorted
list. -/
theorem sortByKey_strict (key : α → Nat) (l : List α)
    (hne : l.Pairwise (fun x y => key x ≠ key y)) :
    (sortByKey key l).Pairwise (fun x y => key x < key y) := by
  refine strict_of_sorted_of_ne key _ (sortByKey_sorted key l) ?_
  exact ((sortByKey_perm key l).pairwise_iff (fun h => Ne.symm h)).2 hne

/-! ### JavaScript `Map` keyed by date keys

`new Map<string, T>()` with `set`/`get`, modelled as an association list:
`set` overwrites in place when the key is present (preserving position, as
a JS `Map` does) and appends otherwise. -/

/-- `map.set(k, v)` (JS `Map` semantics). -/
def mapSet (m : List (Nat × α)) (k : Nat) (v : α) : List (Nat × α) :=
  if m.any (fun p => p.1 = k) then
    m.map (fun p => if p.1 = k then (k, v) else p)
  else m ++ [(k, v)]

/-- `map.get(k)` (JS `Map` semantics). -/
def mapGet (m : List (Nat × α)) (k : Nat) : Option α :=
  (m.find? (fun p => p.1 = k)).map (fun p => p.2)

/-- `Array.from(map.values())`. -/
def mapValues (m : List (Nat × α)) : List α := m.map (fun p => p.2)

theorem find?_overwrite_ne (t : List (Nat × α)) (k : Nat) (v : α) (k' : Nat) (h : k' ≠ k) :
    (t.map (fun p => if p.1 = k then (k, v) else p)).find? (fun p => decide (p.1 = k'))
      = t.find? (fun p => decide (p.1 = k')) := by
  induction t with
  | nil => rfl
  | cons q t ih =>
    simp only [List.map_cons]
    by_cases hq : q.1 = k
    · rw [if_pos hq, List.find?_cons, List.find?_cons]
      have h1 : (decide ((k, v).1 = k')) = false := by simp [Ne.symm h]
      have h2 : (decide (q.1 = k')) = false := by simp [hq, Ne.symm h]
      rw [h1, h2]
      exact ih
    · rw [if_neg hq, List.find?_cons, List.find?_cons]
      cases hd : decide (q.1 = k')
      · simp only []
        exact ih
      · simp only []

theorem find?_overwrite_self (t : List (Nat × α)) (k : Nat) (v : α)
    (h : t.any (fun p => decide (p.1 = k)) = true) :
    (t.map (fun p => if p.1 = k then (k, v) else p)).find? (fun p => decide (p.1 = k))
      = some (k, v) := by
  induction t with
  | nil => simp at h
  | cons q t ih =>
    simp only [List.map_cons]
    by_cases hq : q.1 = k
    · rw [if_pos hq, List.find?_cons]
      simp
    · have h' : t.any (fun p => decide (p.1 = k)) = true := by
        simpa [List.any_cons, hq] using h
      rw [if_neg hq, List.find?_cons]
      have h2 : (decide (q.1 = k)) = false := by simp [hq]
      rw [h2]
      simp only []
      exact ih h'

theorem mapGet_set (m : List (Nat × α)) (k : Nat) (v : α) (k' : Nat) :
    mapGet (mapSet m k v) k' = if k' = k then some v else mapGet m k' := by
  by_cases hany : m.any (fun p => decide (p.1 = k)) = true
  · have hset : mapSet m k v = m.map (fun p => if p.1 = k then (k, v) else p) := by
      simp [mapSet, hany]
    by_cases h' : k' = k
    · subst h'
      simp [mapGet, hset, find?_overwrite_self m k' v hany]
    · simp [mapGet, hset, find?_overwrite_ne m k v k' h', h']
  · have hset : mapSet m k v = m ++ [(k, v)] := by
      simp only [mapSet]
      rw [if_neg (by simpa using hany)]
    by_cases h' : k' = k
    · subst h'
      have hnone : m.find? (fun p => decide (p.1 = k')) = none :=
        List.find?_eq_none.2 (fun x hx => by
          intro hxk
          exact hany (List.any_eq_true.2 ⟨x, hx, hxk⟩))
      simp [mapGet, hset, List.find?_append, hnone, List.find?_cons]
    · have hone : List.find? (fun p => decide (p.1 = k')) [(k, v)] = none := by
        simp [List.find?_cons, Ne.symm h']
      simp [mapGet, hset, List.find?_append, hone, h']

/-- Build a date-keyed map from a list, seeding with `init` and inserting
each list element under its key (`for (const item of l) map.set(key(item), item)`). -/
def buildDateMap (keyOf : α → Nat) (init : List (Nat × α)) (l : List α) : List (Nat × α) :=
  l.foldl (fun m x => mapSet m (keyOf x) x) init

/-- The last element of `l` whose key is `k` (JS `Map` overwrite semantics
make this the surviving entry). -/
def lastKeyed (keyOf : α → Nat) (l : List α) (k : Nat) : Option α :=
  (l.filter (fun x => decide (keyOf x = k))).getLast?

theorem mapGet_buildDateMap (keyOf : α → Nat) (l : List α) (m : List (Nat × α)) (k : Nat) :
    mapGet (buildDateMap keyOf m l) k = (lastKeyed keyOf l k).or (mapGet m k) := by
  induction l generalizing m with
  | nil => simp [buildDateMap, lastKeyed]
  | cons x xs ih =>
    have step : buildDateMap keyOf m (x :: xs) = buildDateMap keyOf (mapSet m (keyOf x) x) xs :=
      rfl
    rw [step, ih, mapGet_set]
    by_cases hx : keyOf x = k
    · have hfil : (x :: xs).filter (fun y => decide (keyOf y = k))
          = x :: xs.filter (fun y => decide (keyOf y = k)) := by
        simp [List.filter_cons, hx]
      cases hlast : lastKeyed keyOf xs k with
      | some y =>
        have hne : xs.filter (fun y => decide (keyOf y = k)) ≠ [] := by
          intro hnil
          simp [lastKeyed, hnil] at hlast
        cases hfil2 : xs.filter (fun y => decide (keyOf y = k)) with
        | nil => exact absurd hfil2 hne
        | cons z zs =>
          have hR : lastKeyed keyOf (x :: xs) k = some y := by
            have : (z :: zs).getLast? = some y := by
              rw [← hfil2]
              simpa [lastKeyed, hfil2] using hlast
            simp only [lastKeyed, hfil, hfil2, List.getLast?_cons_cons]
            exact this
          rw [hR]
          simp
      | none =>
        have hnil : xs.filter (fun y => decide (keyOf y = k)) = [] := by
          simpa [lastKeyed, List.getLast?_eq_none_iff] using hlast
        simp [lastKeyed, hfil, hnil, if_pos (Eq.symm hx)]
    · have hfil : (x :: xs).filter (fun y => decide (keyOf y = k))
          = xs.filter (fun y => decide (keyOf y = k)) := by
        simp [List.filter_cons, hx]
      rw [if_neg (fun h => hx (Eq.symm h))]
      simp [lastKeyed, hfil]

/-- Well-formedness of a date-keyed map: keys are distinct and every entry
is stored under its own key. -/
def MapWF (keyOf : α → Nat) (m : List (Nat × α)) : Prop :=
  (m.map (fun p => p.1)).Nodup ∧ ∀ p ∈ m, keyOf p.2 = p.1

theorem mapSet_keys (m : List (Nat × α)) (k : Nat) (v : α) :
    (mapSet m k v).map (fun p => p.1)
      = if m.any (fun p => decide (p.1 = k)) = true then m.map (fun p => p.1)
        else m.map (fun p => p.1) ++ [k] := by
  by_cases h : m.any (fun p => decide (p.1 = k)) = true
  · simp only [mapSet, h, if_true, if_pos h, List.map_map]
    apply List.map_congr_left
    intro p _
    by_cases hp : p.1 = k
    · simp [hp]
    · simp [hp]
  · simp only [mapSet]
    rw [if_neg (by simpa using h), if_neg h]
    simp

theorem MapWF.set (keyOf : α → Nat) (m : List (Nat × α)) (v : α)
    (hwf : MapWF keyOf m) : MapWF keyOf (mapSet m (keyOf v) v) := by
  obtain ⟨hnd, hcons⟩ := hwf
  constructor
  · rw [mapSet_keys]
    by_cases h : m.any (fun p => decide (p.1 = keyOf v)) = true
    · simpa [h] using hnd
    · rw [if_neg h]
      have hk : keyOf v ∉ m.map (fun p => p.1) := by
        intro hmem
        obtain ⟨p, hp, hpk⟩ := List.mem_map.1 hmem
        exact h (List.any_eq_true.2 ⟨p, hp, by simp [hpk]⟩)
      simpa using List.nodup_append.2 ⟨hnd, List.nodup_singleton _, by simpa using hk⟩
  · intro p hp
    by_cases h : m.any (fun q => decide (q.1 = keyOf v)) = true
    · have hset : mapSet m (keyOf v) v
          = m.map (fun q => if q.1 = keyOf v then (keyOf v, v) else q) := by
        simp [mapSet, h]
      rw [hset] at hp
      obtain ⟨q, hq, hqe⟩ := List.mem_map.1 hp
      by_cases hqk : q.1 = keyOf v
      · rw [if_pos hqk] at hqe
        subst hqe
        rfl
      · rw [if_neg hqk] at hqe
        subst hqe
        exact hcons q hq
    · have hset : mapSet m (keyOf v) v = m ++ [(keyOf v, v)] := by
        simp only [mapSet]
        rw [if_neg (by simpa using h)]
      rw [hset] at hp
      rcases List.mem_append.1 hp with hp | hp
      · exact hcons p hp
      · simp at hp
        subst hp
        rfl

theorem MapWF.buildDateMap (keyOf : α → Nat) (l : List α) (m : List (Nat × α))
    (hwf : MapWF keyOf m) : MapWF keyOf (StockApp.buildDateMap keyOf m l) := by
  induction l generalizing m with
  | nil => exact hwf
  | cons x xs ih => exact ih _ (MapWF.set keyOf m x hwf)

theorem MapWF.nil (keyOf : α → Nat) : MapWF keyOf ([] : List (Nat × α)) := by
  constructor
  · simp
  · intro p hp
    simp at hp

theorem mapGet_eq_some_of_mem (m : List (Nat × α)) (p : Nat × α)
    (hnd : (m.map (fun q => q.1)).Nodup) (hp : p ∈ m) : mapGet m p.1 = some p.2 := by
  induction m with
  | nil => simp at hp
  | cons q t ih =>
    rcases List.mem_cons.1 hp with rfl | hp'
    · simp [mapGet, List.find?_cons]
    · have hq : q.1 ≠ p.1 := by
        intro he
        have : p.1 ∈ t.map (fun r => r.1) := List.mem_map.2 ⟨p, hp', rfl⟩
        rw [← he] at this
        exact (List.nodup_cons.1 (by simpa using hnd)).1 this
      have ht : (t.map (fun r => r.1)).Nodup := (List.nodup_cons.1 (by simpa using hnd)).2
      have := ih ht hp'
      simpa [mapGet, List.find?_cons, hq] using this

theorem mem_of_mapGet_eq_some (m : List (Nat × α)) (k : Nat) (v : α)
    (h : mapGet m k = some v) : (k, v) ∈ m := by
  simp only [mapGet, Option.map_eq_some'] at h
  obtain ⟨p, hp, hpv⟩ := h
  have hk : p.1 = k := by simpa using List.find?_some hp
  have hm : p ∈ m := List.mem_of_find?_eq_some hp
  have : p = (k, v) := by
    cases p
    simp only at hk hpv
    simp [hk, hpv]
  rwa [this] at hm

theorem mem_values_iff (keyOf : α → Nat) (m : List (Nat × α)) (v : α)
    (hwf : MapWF keyOf m) :
    v ∈ mapValues m ↔ mapGet m (keyOf v) = some v := by
  constructor
  · intro hv
    obtain ⟨p, hp, hpv⟩ := List.mem_map.1 hv
    have hkey : keyOf v = p.1 := by rw [← hpv]; exact hwf.2 p hp
    rw [hkey]
    rw [← hpv]
    exact mapGet_eq_some_of_mem m p hwf.1 hp
  · intro hv
    exact List.mem_map.2 ⟨(keyOf v, v), mem_of_mapGet_eq_some m (keyOf v) v hv, rfl⟩

theorem values_pairwise_ne_key (keyOf : α → Nat) (m : List (Nat × α))
    (hwf : MapWF keyOf m) :
    (mapValues m).Pairwise (fun a b => keyOf a ≠ keyOf b) := by
  obtain ⟨hnd, hcons⟩ := hwf
  have hpw : m.Pairwise (fun p q => p.1 ≠ q.1) := by
    rw [List.Nodup, List.pairwise_map] at hnd
    exact hnd
  have hpw2 : m.Pairwise (fun p q => keyOf p.2 ≠ keyOf q.2) := by
    refine hpw.imp_of_mem ?_
    intro p q hp hq hne
    rw [hcons p hp, hcons q hq]
    exact hne
  rw [mapValues, List.pairwise_map]
  exact hpw2

theorem values_nodup (keyOf : α → Nat) (m : List (Nat × α)) (hwf : MapWF keyOf m) :
    (mapValues m).Nodup :=
  (values_pairwise_ne_key keyOf m hwf).imp (fun h he => h (by rw [he]))

/-- Two well-formed maps with the same lookup function have permuted value
lists. -/
theorem values_perm_of_lookup_eq (keyOf : α → Nat) (m₁ m₂ : List (Nat × α))
    (h₁ : MapWF keyOf m₁) (h₂ : MapWF keyOf m₂)
    (h : ∀ k, mapGet m₁ k = mapGet m₂ k) :
    List.Perm (mapValues m₁) (mapValues m₂) := by
  have hsub : ∀ v, v ∈ mapValues m₁ → v ∈ mapValues m₂ := by
    intro v hv
    rw [mem_values_iff keyOf m₂ v h₂, ← h (keyOf v)]
    exact (mem_values_iff keyOf m₁ v h₁).1 hv
  have hsub' : ∀ v, v ∈ mapValues m₂ → v ∈ mapValues m₁ := by
    intro v hv
    rw [mem_values_iff keyOf m₁ v h₁, h (keyOf v)]
    exact (mem_values_iff keyOf m₂ v h₂).1 hv
  exact ((values_nodup keyOf m₁ h₁).subperm hsub).antisymm
    ((values_nodup keyOf m₂ h₂).subperm hsub')

/-! ### StockService (src stockService.ts) -/

/-- `getDateKey`: the UTC calendar-day key of a timestamp
(`date.toISOString().split('T')[0]`), as a day index. -/
def getDateKey (date : Nat) : Nat := date / dayMs

/-- Day key of a `StockPriceData` item, as used by the date-keyed maps. -/
def spdKey (item : StockPriceData) : Nat := getDateKey item.date

/-- `StockService.mergeAndDeduplicate`: seed a date-keyed map with
`oldData`, overwrite with `newData`, then emit the values sorted ascending
by date. -/
def mergeAndDeduplicate (oldData newData : List StockPriceData) : List StockPriceData :=
  sortByKey (fun item => item.date)
    (mapValues (buildDateMap spdKey (buildDateMap spdKey [] oldData) newData))

/-- Ratio loop of `StockService.getPriceRatio` (after both histories are
fetched): build a date-keyed map from `data2`, emit a ratio point for each
`data1` item whose key is found with non-zero close, then sort by date. -/
def computeRatios (data1 data2 : List StockPriceData) : List RatioData :=
  let data2Map := buildDateMap spdKey [] data2
  sortByKey (fun item => item.date)
    (data1.filterMap (fun item1 =>
      match mapGet data2Map (getDateKey item1.date) with
      | some item2 =>
        if item2.close ≠ 0 then
          some ⟨item1.date, item1.close / item2.close, item1.close, item2.close⟩
        else none
      | none => none))

/-- The ambient wall clock: `new Date()` together with the date-fns values
the code derives from it (UTC midnight today, `startOfYear`,
`subYears(today, 5)`), supplied as data since calendar arithmetic is not
re-modelled. -/
structure Clock where
  nowMs : Nat
  todayMs : Nat
  yearStartMs : Nat
  fiveYearsAgoMs : Nat
deriving DecidableEq

/-- `MIN_TRADING_DAYS` table, including the `|| 1` fallback applied at the
use site. -/
def MIN_TRADING_DAYS (tf : String) : Nat :=
  if tf = "5Y" then 1000
  else if tf = "1Y" then 200
  else if tf = "YTD" then 1
  else if tf = "1M" then 15
  else if tf = "1W" then 3
  else 1

/-- `StockService.calculateDateRange` (switch on the uppercased timeframe,
default `1Y`). -/
def calculateDateRange (c : Clock) (timeframe : String) : Nat × Nat :=
  match jsToUpper timeframe with
  | "5Y" => (c.fiveYearsAgoMs, c.todayMs)
  | "1Y" => (c.todayMs - 365 * dayMs, c.todayMs)
  | "YTD" => (c.yearStartMs, c.todayMs)
  | "1M" => (c.todayMs - 30 * dayMs, c.todayMs)
  | "1W" => (c.todayMs - 7 * dayMs, c.todayMs)
  | _ => (c.todayMs - 365 * dayMs, c.todayMs)

/-- `reduce((max, item) => item.date > max ? item.date : max, data[0].date)`. -/
def latestDateOf (existingData : List StockPriceRow) : Nat :=
  existingData.foldl (fun m item => if m < item.date then item.date else m)
    ((existingData.head?.map (fun r => r.date)).getD 0)

/-- `StockService.needsDataRefresh`.  JS float arithmetic is modelled
exactly over `ℚ`; `Math.floor(daysSinceYearStart * 0.7)` becomes
`7 * d / 10` in `Nat`. -/
def needsDataRefresh (c : Clock) (timeframe : String) (existingData : List StockPriceRow) :
    Bool :=
  let tf := jsToUpper timeframe
  if existingData.length = 0 then true
  else
    let minDays := MIN_TRADING_DAYS tf
    let countLow : Bool :=
      if tf = "YTD" then
        let daysSinceYearStart := (c.nowMs - c.yearStartMs) / dayMs
        let expectedTradingDays := 7 * daysSinceYearStart / 10
        decide ((existingData.length : ℚ) < max 1 ((expectedTradingDays : ℚ) * (8 / 10)))
      else decide ((existingData.length : ℚ) < (minDays : ℚ) * (8 / 10))
    if countLow then true
    else
      let daysSinceLatest := (c.nowMs - latestDateOf existingData) / dayMs
      decide (daysSinceLatest > 3)

/-- `StockService.queryDatabase`: rows of `symbol` in the window, ordered
by date ascending. -/
def queryDatabase (db : List StockPriceRow) (symbol : String) (fromMs toMs : Nat) :
    List StockPriceRow :=
  sortByKey (fun r => r.date)
    (db.filter (fun r => decide (r.symbol = symbol) && decide (fromMs ≤ r.date)
      && decide (r.date ≤ toMs)))

/-- `StockService.convertPrismaToStockPriceData` (`decimalToNumber` is the
identity under the `ℚ` model). -/
def convertPrismaToStockPriceData (prismaData : List StockPriceRow) : List StockPriceData :=
  prismaData.map (fun item =>
    ⟨item.date, item.open_, item.high, item.low, item.close, item.volume, item.change,
      item.changePercent, item.vwap⟩)

/-- Redis `get` of a key, on the typed view of the cache contents. -/
def cacheLookup (cache : List (String × α)) (k : String) : Option α :=
  (cache.find? (fun p => p.1 = k)).map (fun p => p.2)

/-- `CacheService.buildStockHistoryKey`. -/
def buildStockHistoryKey (symbol timeframe : String) : String :=
  "stock:history:" ++ jsToUpper symbol ++ ":" ++ timeframe

/-- `CacheService.buildPriceRatioKey`. -/
def buildPriceRatioKey (symbol1 symbol2 timeframe : String) : String :=
  "stock:ratio:" ++ jsToUpper symbol1 ++ ":" ++ jsToUpper symbol2 ++ ":" ++ timeframe

/-- `rehydrateDates`: deserialization of a cache hit, the identity on the
typed view of the cache. -/
def rehydrateDates (data : List StockPriceData) : List StockPriceData := data

/-- `rehydrateDates` as applied to cached ratio data. -/
def rehydrateRatios (data : List RatioData) : List RatioData := data

/-- `SyncResult` (dataFetcher.ts). -/
structure SyncResult where
  symbol : String
  recordsFetched : Nat
  recordsSaved : Nat
  dateFrom : Option Nat
  dateTo : Option Nat
  errors : List String
deriving DecidableEq

/-- Ambient state of a `StockService` read: cache and store contents, plus
the outcome a `syncStock` invocation would have (`none` models a thrown
sync, `some r` a returned `SyncResult` leaving the store at `postSyncDb`). -/
structure Env where
  historyCache : List (String × List StockPriceData)
  ratioCache : List (String × List RatioData)
  db : List StockPriceRow
  postSyncDb : List StockPriceRow
  syncOutcome : Option SyncResult
  clock : Clock

/-- Layers 2-3 of `StockService.getHistoricalData`: window computation,
store query, staleness check, optional sync with re-query (sync errors are
swallowed), and conversion.  The final cache write does not affect the
returned value and is not modelled. -/
def getHistoricalFromDb (env : Env) (nsym ntf : String) : List StockPriceData :=
  let range := calculateDateRange env.clock ntf
  let dbData := queryDatabase env.db nsym range.1 range.2
  let dbData2 :=
    if needsDataRefresh env.clock ntf dbData then
      match env.syncOutcome with
      | some syncResult =>
        if syncResult.errors = [] ∧ syncResult.recordsSaved > 0 then
          queryDatabase env.postSyncDb nsym range.1 range.2
        else dbData
      | none => dbData
    else dbData
  convertPrismaToStockPriceData dbData2

/-- `StockService.getHistoricalData`: validation, cache layer (a hit with
at least one record is returned immediately; a read failure behaves as a
miss, which the `Option` lookup already covers), then the database layers. -/
def getHistoricalData (env : Env) (symbol timeframe : String) :
    Except StockServiceError (List StockPriceData) :=
  let normalizedSymbol := jsTrim (jsToUpper symbol)
  let normalizedTimeframe := jsToUpper timeframe
  if ¬ isValidTimeframe normalizedTimeframe then
    .error ⟨"Invalid timeframe: " ++ timeframe ++ ". Valid values: 5Y, 1Y, YTD, 1M, 1W",
      "INVALID_TIMEFRAME", some normalizedSymbol⟩
  else
    match cacheLookup env.historyCache
        (buildStockHistoryKey normalizedSymbol normalizedTimeframe) with
    | some cached =>
      if cached.length > 0 then .ok (rehydrateDates cached)
      else .ok (getHistoricalFromDb env normalizedSymbol normalizedTimeframe)
    | none => .ok (getHistoricalFromDb env normalizedSymbol normalizedTimeframe)

/-- Cache-miss path of `StockService.getPriceRatio`: fetch both histories,
fail with `NO_DATA` on an empty series, then compute the ratio points. -/
def getPriceRatioUncached (env : Env) (sym1 sym2 ntf : String) :
    Except StockServiceError (List RatioData) :=
  match getHistoricalData env sym1 ntf with
  | .error e => .error e
  | .ok data1 =>
    match getHistoricalData env sym2 ntf with
    | .error e => .error e
    | .ok data2 =>
      if data1.length = 0 then
        .error ⟨"No data available for symbol: " ++ sym1, "NO_DATA", some sym1⟩
      else if data2.length = 0 then
        .error ⟨"No data available for symbol: " ++ sym2, "NO_DATA", some sym2⟩
      else .ok (computeRatios data1 data2)

/-- `StockService.getPriceRatio`: cache lookup first (no timeframe
validation before it), then the uncached path. -/
def getPriceRatio (env : Env) (symbol1 symbol2 timeframe : String) :
    Except StockServiceError (List RatioData) :=
  let sym1 := jsTrim (jsToUpper symbol1)
  let sym2 := jsTrim (jsToUpper symbol2)
  let normalizedTimeframe := jsToUpper timeframe
  match cacheLookup env.ratioCache (buildPriceRatioKey sym1 sym2 normalizedTimeframe) with
  | some cached =>
    if cached.length > 0 then .ok (rehydrateRatios cached)
    else getPriceRatioUncached env sym1 sym2 normalizedTimeframe
  | none => getPriceRatioUncached env sym1 sym2 normalizedTimeframe

/-! ### CacheService TTL policy (cache.ts) -/

/-- `TIMEFRAME_TTL` table. -/
def TIMEFRAME_TTL (tf : String) : Option Nat :=
  if tf = "5Y" then some (24 * 60 * 60)
  else if tf = "1Y" then some (12 * 60 * 60)
  else if tf = "YTD" then some (6 * 60 * 60)
  else if tf = "1M" then some (3 * 60 * 60)
  else if tf = "1W" then some (1 * 60 * 60)
  else none

/-- `CacheService.getTTLForTimeframe`: table lookup after uppercasing, with
the instance `defaultTTL` as the `??` fallback. -/
def getTTLForTimeframe (defaultTTL : Nat) (timeframe : String) : Nat :=
  (TIMEFRAME_TTL (jsToUpper timeframe)).getD defaultTTL

/-! ### DataFetcher (dataFetcher.ts) -/

/-- A raw JSON numeric field as JavaScript sees it: absent/null, a NaN
(e.g. `Number("abc")`), or a numeric value. -/
inductive JsNum
  | missing
  | nan
  | num (q : ℚ)
deriving DecidableEq

/-- The `date` field of a raw record: absent/empty (falsy), present but
rejected by `parseISO` (`isNaN(date.getTime())`), or parseable. -/
inductive RawDate
  | missing
  | invalid
  | valid (ms : Nat)
deriving DecidableEq

/-- Raw `FMPHistoricalPrice` record as received from the API. -/
structure FMPHistoricalPrice where
  date : RawDate
  open_ : JsNum
  high : JsNum
  low : JsNum
  close : JsNum
  volume : JsNum
  change : JsNum
  changePercent : JsNum
  vwap : JsNum
deriving DecidableEq

/-- `DataFetcherError` (message, code, optional HTTP status). -/
structure DataFetcherError where
  message : String
  code : String
  statusCode : Option Nat
deriving DecidableEq

/-- `DataFetcher.validateNumber`: default on null/undefined and NaN. -/
def validateNumber (value : JsNum) (defaultValue : ℚ) : ℚ :=
  match value with
  | .missing => defaultValue
  | .nan => defaultValue
  | .num q => q

/-- Loop body of `DataFetcher.validateAndNormalize` for one record
(`NormalizedPriceData` coincides with a `stock_prices` row). -/
def normalizeOne (symbol : String) (record : FMPHistoricalPrice) :
    Option StockPriceRow :=
  match record.date with
  | .missing => none
  | .invalid => none
  | .valid date =>
    let n : StockPriceRow :=
      { symbol := symbol
        date := date
        open_ := validateNumber record.open_ 0
        high := validateNumber record.high 0
        low := validateNumber record.low 0
        close := validateNumber record.close 0
        volume := Int.floor (validateNumber record.volume 0)
        change := validateNumber record.change 0
        changePercent := validateNumber record.changePercent 0
        vwap := validateNumber record.vwap 0 }
    if n.open_ = 0 ∧ n.high = 0 ∧ n.low = 0 ∧ n.close = 0 then none
    else some n

/-- `DataFetcher.validateAndNormalize`: per-record validation, dropped
records never abort the rest. -/
def validateAndNormalize (symbol : String) (data : List FMPHistoricalPrice) :
    List StockPriceRow :=
  data.filterMap (normalizeOne symbol)

/-- `this.batchSize = 100`. -/
def BATCH_SIZE : Nat := 100

/-- `for (let i = 0; i < n; i += size) slice(i, i + size)`. -/
def batches (size : Nat) (l : List α) : List (List α) :=
  (List.range ((l.length + size - 1) / size)).map (fun i => (l.drop (i * size)).take size)

/-- Prisma `stockPrice.upsert` keyed on `(symbol, date)`: overwrite the
whole row when the key exists, insert otherwise. -/
def dbUpsert (db : List StockPriceRow) (record : StockPriceRow) : List StockPriceRow :=
  if db.any (fun row => decide (row.symbol = record.symbol)
      && decide (row.date = record.date)) then
    db.map (fun row =>
      if row.symbol = record.symbol ∧ row.date = record.date then record else row)
  else db ++ [record]

/-- One `$transaction` batch: its upserts commit together. -/
def applyBatch (db : List StockPriceRow) (batch : List StockPriceRow) : List StockPriceRow :=
  batch.foldl dbUpsert db

/-- Error string for HTTP 429. -/
def rateLimitMessage : String :=
  "API rate limit exceeded. FMP free tier allows 250 calls/day."

/-- Error string for HTTP 401/403. -/
def authErrorMessage : String := "Invalid API key or unauthorized access"

/-- Error string for `ECONNREFUSED`/`ENOTFOUND`. -/
def networkErrorMessage : String :=
  "Unable to connect to FMP API. Check your network connection."

/-- Error string for `ECONNABORTED`. -/
def timeoutMessage : String := "Request timed out while fetching data from FMP API"

/-- `Database error while saving data: ...` -/
def databaseErrorMessage (cause : String) : String :=
  "Database error while saving data: " ++ cause

/-- Outcome of the axios GET in `fetchHistoricalData`, abstracting the
network: the possible response shapes and the classified throw cases. -/
inductive ApiResponse
  | nullData
  | arr (data : List FMPHistoricalPrice)
  | wrapped (historical : List FMPHistoricalPrice)
  | errorMessageField
  | unexpectedShape
  | httpStatus (status : Nat) (message : String)
  | connectionError
  | timeout
  | axiosOther (message : String)
  | otherThrow (message : String)
deriving DecidableEq

/-- `DataFetcher.fetchHistoricalData`: input checks, the two tolerated
response shapes, and the error classification (429 rate limit, 401/403
auth, connection failure, timeout, other). -/
def fetchHistoricalData (apiKey : String) (response : ApiResponse) (symbol : String) :
    Except DataFetcherError (List FMPHistoricalPrice) :=
  let normalizedSymbol := jsTrim (jsToUpper symbol)
  if normalizedSymbol = "" then
    .error ⟨"Symbol is required", "INVALID_SYMBOL", none⟩
  else if apiKey = "" then
    .error ⟨"FMP API key not configured", "NO_API_KEY", none⟩
  else
    match response with
    | .nullData =>
      .error ⟨"No data returned for symbol: " ++ normalizedSymbol, "EMPTY_RESPONSE", none⟩
    | .arr data => .ok data
    | .wrapped historical => .ok historical
    | .errorMessageField =>
      .error ⟨"Invalid symbol or no historical data: " ++ normalizedSymbol,
        "INVALID_SYMBOL", none⟩
    | .unexpectedShape =>
      .error ⟨"Unexpected API response format for: " ++ normalizedSymbol,
        "INVALID_RESPONSE", none⟩
    | .httpStatus status message =>
      if status = 429 then .error ⟨rateLimitMessage, "RATE_LIMIT", some 429⟩
      else if status = 401 ∨ status = 403 then
        .error ⟨authErrorMessage, "AUTH_ERROR", some status⟩
      else .error ⟨"API request failed: " ++ message, "API_ERROR", some status⟩
    | .connectionError => .error ⟨networkErrorMessage, "NETWORK_ERROR", none⟩
    | .timeout => .error ⟨timeoutMessage, "TIMEOUT", none⟩
    | .axiosOther message => .error ⟨"API request failed: " ++ message, "API_ERROR", none⟩
    | .otherThrow message => .error ⟨"Unexpected error: " ++ message, "UNKNOWN_ERROR", none⟩

/-- Sequential batch commits of `saveToDatabase`: batch `i` throws the
database error when `failAt = some i` (with underlying cause `failCause`);
earlier batches stay committed.  Returns (count of records in committed
batches, resulting store, thrown error if any). -/
def saveBatchesAux (db : List StockPriceRow) (bs : List (List StockPriceRow))
    (i : Nat) (failAt : Option Nat) (failCause : String) :
    Nat × List StockPriceRow × Option DataFetcherError :=
  match bs with
  | [] => (0, db, none)
  | b :: rest =>
    if failAt = some i then
      (0, db, some ⟨databaseErrorMessage failCause, "DATABASE_ERROR", none⟩)
    else
      let r := saveBatchesAux (applyBatch db b) rest (i + 1) failAt failCause
      (b.length + r.1, r.2.1, r.2.2)

/-- `DataFetcher.saveToDatabase`. -/
def saveToDatabase (db : List StockPriceRow) (symbol : String)
    (data : List FMPHistoricalPrice) (failAt : Option Nat) (failCause : String) :
    Nat × List StockPriceRow × Option DataFetcherError :=
  let normalizedSymbol := jsTrim (jsToUpper symbol)
  if data.length = 0 then (0, db, none)
  else
    let validatedData := validateAndNormalize normalizedSymbol data
    if validatedData.length = 0 then (0, db, none)
    else saveBatchesAux db (batches BATCH_SIZE validatedData) 0 failAt failCause

/-- `DataFetcher.syncStock`: never throws; every failure of the fetch or
store step lands in `errors`.  `response` abstracts the network outcome and
`failAt`/`failCause` inject a database failure.  `dateRange` is computed
from the parseable dates (NaN propagation from unparseable dates is not
modelled; no claim touches `dateRange`). -/
def syncStock (db : List StockPriceRow) (apiKey : String) (response : ApiResponse)
    (failAt : Option Nat) (failCause : String) (symbol : String) :
    SyncResult × List StockPriceRow :=
  let normalizedSymbol := jsTrim (jsToUpper symbol)
  match fetchHistoricalData apiKey response normalizedSymbol with
  | .error e =>
    ({ symbol := normalizedSymbol, recordsFetched := 0, recordsSaved := 0,
       dateFrom := none, dateTo := none, errors := [e.message] }, db)
  | .ok historicalData =>
    if historicalData.length > 0 then
      let validDates := historicalData.filterMap (fun d =>
        match d.date with | .valid ms => some ms | _ => none)
      let r := saveToDatabase db normalizedSymbol historicalData failAt failCause
      match r.2.2 with
      | some e =>
        ({ symbol := normalizedSymbol, recordsFetched := historicalData.length,
           recordsSaved := 0, dateFrom := validDates.min?, dateTo := validDates.max?,
           errors := [e.message] }, r.2.1)
      | none =>
        ({ symbol := normalizedSymbol, recordsFetched := historicalData.length,
           recordsSaved := r.1, dateFrom := validDates.min?, dateTo := validDates.max?,
           errors := [] }, r.2.1)
    else
      ({ symbol := normalizedSymbol, recordsFetched := 0, recordsSaved := 0,
         dateFrom := none, dateTo := none, errors := [] }, db)

/-! ### FundamentalFetcher (fundamentalFetcher.ts) -/

/-- `FundamentalRecord`. -/
structure FundamentalRecord where
  symbol : String
  date : Nat
  peRatio : Option ℚ
  priceToFcf : Option ℚ
  fcf : Option Int
  eps : Option ℚ
  revenue : Option Int
  revenueGrowthYoy : Option ℚ
  roe : Option ℚ
  debtToEquity : Option ℚ
  period : Option String
deriving DecidableEq

/-- `((current − previous) / Math.abs(previous)) * 100` on `BigInt`
revenues converted to numbers. -/
def yoyGrowth (p c : Int) : ℚ := (((c : ℚ) - (p : ℚ)) / |(p : ℚ)|) * 100

/-- Body of `records.map((record, index) => ...)` in
`calculateRevenueGrowthYoy`. -/
def growthEntry (records : List FundamentalRecord) (index : Nat)
    (record : FundamentalRecord) : FundamentalRecord :=
  if index < 4 then record
  else
    match records[index - 4]? with
    | none => record
    | some prior =>
      match prior.revenue, record.revenue with
      | some p, some c =>
        if p = 0 then record
        else { record with revenueGrowthYoy := some (yoyGrowth p c) }
      | _, _ => record

/-- Index-carrying map running `growthEntry` over the list. -/
def growthMapAux (records : List FundamentalRecord) (i : Nat) :
    List FundamentalRecord → List FundamentalRecord
  | [] => []
  | r :: rest => growthEntry records i r :: growthMapAux records (i + 1) rest

/-- `FundamentalFetcher.calculateRevenueGrowthYoy`. -/
def calculateRevenueGrowthYoy (records : List FundamentalRecord) :
    List FundamentalRecord :=
  growthMapAux records 0 records

/-! ### Claim-side definitions (worded from the spec, for comparison) -/

/-- Minimum-expected-count heuristic exactly as claim C2 words it: for YTD
`0.7 × calendar_days_elapsed_this_year` (no floor), otherwise the
`MIN_TRADING_DAYS` table value.  Modelled from the spec text. -/
def minExpectedClaimed (c : Clock) (tf : Timeframe) : ℚ :=
  match tf with
  | .ytd => (7 / 10) * (((c.nowMs - c.yearStartMs) / dayMs : Nat) : ℚ)
  | t => (MIN_TRADING_DAYS t.str : ℚ)

/-- The staleness predicate as claim C2 words it: empty, or count below
80% of the heuristic, or newest record more than 3 calendar days old. -/
def stalenessClaimed (c : Clock) (tf : Timeframe) (data : List StockPriceRow) : Prop :=
  data = []
  ∨ (data.length : ℚ) < (8 / 10) * minExpectedClaimed c tf
  ∨ (c.nowMs - latestDateOf data) / dayMs > 3

/-- The heuristic with the `Math.floor` the code applies to
`daysSinceYearStart * 0.7` (the only amendment C2 needs). -/
def minExpectedFloored (c : Clock) (tf : Timeframe) : ℚ :=
  match tf with
  | .ytd => ((7 * ((c.nowMs - c.yearStartMs) / dayMs) / 10 : Nat) : ℚ)
  | t => (MIN_TRADING_DAYS t.str : ℚ)

/-- Amended C2 staleness predicate: as claimed, but with the floored YTD
heuristic. -/
def stalenessFloored (c : Clock) (tf : Timeframe) (data : List StockPriceRow) : Prop :=
  data = []
  ∨ (data.length : ℚ) < (8 / 10) * minExpectedFloored c tf
  ∨ (c.nowMs - latestDateOf data) / dayMs > 3

theorem cast_lt_max_one_iff (n : Nat) (hn : 1 ≤ n) (x : ℚ) :
    ((n : ℚ) < max 1 x) ↔ ((n : ℚ) < x) := by
  rw [lt_max_iff]
  constructor
  · rintro (h | h)
    · exact absurd h (not_lt.2 (by exact_mod_cast hn))
    · exact h
  · exact Or.inr

/-- Unfolded shape of `needsDataRefresh`. -/
theorem needsDataRefresh_shape (c : Clock) (tfs : String) (data : List StockPriceRow) :
    needsDataRefresh c tfs data = true ↔
      (data = []
       ∨ (if jsToUpper tfs = "YTD" then
            (data.length : ℚ)
              < max 1 (((7 * ((c.nowMs - c.yearStartMs) / dayMs) / 10 : Nat) : ℚ) * (8 / 10))
          else (data.length : ℚ) < (MIN_TRADING_DAYS (jsToUpper tfs) : ℚ) * (8 / 10))
       ∨ (c.nowMs - latestDateOf data) / dayMs > 3) := by
  simp only [needsDataRefresh]
  by_cases h0 : data.length = 0
  · simp [h0, List.length_eq_zero.1 h0]
  · rw [if_neg h0]
    have hne : (data = []) ↔ False := by
      simp only [iff_false]
      intro h
      exact h0 (by simp [h])
    by_cases hy : jsToUpper tfs = "YTD"
    · rw [if_pos hy]
      simp only [hy, if_pos rfl, hne, false_or]
      by_cases hcount :
          (data.length : ℚ)
            < max 1 (((7 * ((c.nowMs - c.yearStartMs) / dayMs) / 10 : Nat) : ℚ) * (8 / 10))
      · simp [hcount]
      · simp [hcount]
    · rw [if_neg hy]
      simp only [hy, if_neg, hne, false_or, if_false]
      by_cases hcount : (data.length : ℚ) < (MIN_TRADING_DAYS (jsToUpper tfs) : ℚ) * (8 / 10)
      · simp [hcount]
      · simp [hcount]

/-- C2 (amended): for every clock, valid timeframe and stored record list,
`needsDataRefresh` returns true iff the list is empty, or the record count
is below 80% of the timeframe's minimum-expected-count heuristic — for YTD
the floor of 0.7 times the calendar days elapsed this year — or the most
recent stored date is more than 3 calendar days old. -/
theorem needsDataRefresh_staleness_characterization (c : Clock) (tf : Timeframe)
    (data : List StockPriceRow) :
    needsDataRefresh c tf.str data = true ↔ stalenessFloored c tf data := by
  rw [needsDataRefresh_shape]
  have hlen : ¬ data = [] → 1 ≤ data.length := by
    intro hd
    exact Nat.one_le_iff_ne_zero.2 (fun hh => hd (List.length_eq_zero.1 hh))
  cases tf
  case ytd =>
    simp only [Timeframe.str, stalenessFloored, minExpectedFloored]
    rw [show jsToUpper "YTD" = "YTD" from rfl, if_pos rfl]
    constructor
    · rintro (h | h | h)
      · exact Or.inl h
      · by_cases hd : data = []
        · exact Or.inl hd
        · refine Or.inr (Or.inl ?_)
          rw [mul_comm]
          exact (cast_lt_max_one_iff _ (hlen hd) _).1 h
      · exact Or.inr (Or.inr h)
    · rintro (h | h | h)
      · exact Or.inl h
      · by_cases hd : data = []
        · exact Or.inl hd
        · refine Or.inr (Or.inl ?_)
          refine (cast_lt_max_one_iff _ (hlen hd) _).2 ?_
          rw [mul_comm] at h
          exact h
      · exact Or.inr (Or.inr h)
  case fiveY =>
    simp only [Timeframe.str, stalenessFloored, minExpectedFloored]
    rw [show jsToUpper "5Y" = "5Y" from rfl,
      if_neg (by decide : ¬ ("5Y" : String) = "YTD")]
    rw [mul_comm]
  case oneY =>
    simp only [Timeframe.str, stalenessFloored, minExpectedFloored]
    rw [show jsToUpper "1Y" = "1Y" from rfl,
      if_neg (by decide : ¬ ("1Y" : String) = "YTD")]
    rw [mul_comm]
  case oneM =>
    simp only [Timeframe.str, stalenessFloored, minExpectedFloored]
    rw [show jsToUpper "1M" = "1M" from rfl,
      if_neg (by decide : ¬ ("1M" : String) = "YTD")]
    rw [mul_comm]
  case oneW =>
    simp only [Timeframe.str, stalenessFloored, minExpectedFloored]
    rw [show jsToUpper "1W" = "1W" from rfl,
      if_neg (by decide : ¬ ("1W" : String) = "YTD")]
    rw [mul_comm]

/-- A day-`d` row with unit prices, used in concrete scenarios. -/
def sampleRow (d : Nat) : StockPriceRow :=
  ⟨"AAPL", d * dayMs, 1, 1, 1, 1, 0, 0, 0, 1⟩

/-- Clock 11 calendar days into the year. -/
def cexClock : Clock := ⟨11 * dayMs, 11 * dayMs, 0, 0⟩

/-- Six stored rows, the newest one from today. -/
def cexRows : List StockPriceRow :=
  [sampleRow 6, sampleRow 7, sampleRow 8, sampleRow 9, sampleRow 10, sampleRow 11]

/-- C2 (counterexample): 11 days into the year with 6 fresh stored records,
the code's `needsDataRefresh` returns false (it floors `11 × 0.7` to 7 and
compares `6 < 5.6`), while the claim's unfloored heuristic
(`6 < 0.8 × 7.7 = 6.16`) says stale — so the claimed iff fails on the
(b) clause. -/
theorem needsDataRefresh_claim_counterexample :
    needsDataRefresh cexClock (Timeframe.str .ytd) cexRows = false
      ∧ stalenessClaimed cexClock .ytd cexRows := by
  constructor
  · with_unfolding_all decide
  · refine Or.inr (Or.inl ?_)
    show ((6 : Nat) : ℚ) < (8 / 10) * minExpectedClaimed cexClock .ytd
    with_unfolding_all decide

/-- C9: the TTL table is exactly 5Y→86400 s, 1Y→43200 s, YTD→21600 s,
1M→10800 s, 1W→3600 s, and `getTTLForTimeframe` returns the table value
for every timeframe in the enum (any `defaultTTL`). -/
theorem getTTLForTimeframe_exact (defaultTTL : Nat) (tf : Timeframe) :
    TIMEFRAME_TTL tf.str
        = some (match tf with
          | .fiveY => 86400 | .oneY => 43200 | .ytd => 21600
          | .oneM => 10800 | .oneW => 3600)
      ∧ getTTLForTimeframe defaultTTL tf.str
        = (match tf with
          | .fiveY => 86400 | .oneY => 43200 | .ytd => 21600
          | .oneM => 10800 | .oneW => 3600) := by
  cases tf <;> exact ⟨rfl, rfl⟩

/-- Claim-side C6 keep predicate: parseable date, and open/high/low/close
not all zero after coercion. -/
def keepsRecord (record : FMPHistoricalPrice) : Bool :=
  (match record.date with | .valid _ => true | _ => false)
    && ! (decide (validateNumber record.open_ 0 = 0)
      && decide (validateNumber record.high 0 = 0)
      && decide (validateNumber record.low 0 = 0)
      && decide (validateNumber record.close 0 = 0))

/-- Claim-side C6 normalization: the parsed date, every numeric field
coerced to 0 when missing or unparseable, volume floored to an integer.
(The date default is never reached under `keepsRecord`.) -/
def normalizeFields (symbol : String) (record : FMPHistoricalPrice) : StockPriceRow :=
  { symbol := symbol
    date := match record.date with | .valid d => d | _ => 0
    open_ := validateNumber record.open_ 0
    high := validateNumber record.high 0
    low := validateNumber record.low 0
    close := validateNumber record.close 0
    volume := Int.floor (validateNumber record.volume 0)
    change := validateNumber record.change 0
    changePercent := validateNumber record.changePercent 0
    vwap := validateNumber record.vwap 0 }

/-- C6: validation keeps exactly the records with a parseable date whose
coerced open/high/low/close are not all zero; kept records get missing or
unparseable numeric fields coerced to 0, and sibling valid records survive
a dropped one (the result is a filter of the input). -/
theorem validateAndNormalize_keeps_exactly (symbol : String)
    (data : List FMPHistoricalPrice) :
    validateAndNormalize symbol data
      = (data.filter keepsRecord).map (normalizeFields symbol) := by
  induction data with
  | nil => rfl
  | cons r rest ih =>
    simp only [validateAndNormalize] at ih
    simp only [validateAndNormalize, List.filterMap_cons, List.filter_cons]
    cases hd : r.date with
    | missing =>
      have hk : keepsRecord r = false := by simp [keepsRecord, hd]
      have hn : normalizeOne symbol r = none := by simp [normalizeOne, hd]
      simp [hk, hn, ih]
    | invalid =>
      have hk : keepsRecord r = false := by simp [keepsRecord, hd]
      have hn : normalizeOne symbol r = none := by simp [normalizeOne, hd]
      simp [hk, hn, ih]
    | valid d =>
      by_cases hz : validateNumber r.open_ 0 = 0 ∧ validateNumber r.high 0 = 0
          ∧ validateNumber r.low 0 = 0 ∧ validateNumber r.close 0 = 0
      · have hk : keepsRecord r = false := by
          simp [keepsRecord, hd, hz.1, hz.2.1, hz.2.2.1, hz.2.2.2]
        have hn : normalizeOne symbol r = none := by
          simp only [normalizeOne, hd]
          rw [if_pos ⟨hz.1, hz.2.1, hz.2.2.1, hz.2.2.2⟩]
        simp [hk, hn, ih]
      · have hk : keepsRecord r = true := by
          simp only [keepsRecord, hd, Bool.true_and, Bool.not_eq_true',
            Bool.and_eq_false_iff]
          by_cases h1 : validateNumber r.open_ 0 = 0
          · by_cases h2 : validateNumber r.high 0 = 0
            · by_cases h3 : validateNumber r.low 0 = 0
              · have h4 : ¬ validateNumber r.close 0 = 0 := fun h4 =>
                  hz ⟨h1, h2, h3, h4⟩
                simp [h4]
              · simp [h3]
            · simp [h2]
          · simp [h1]
        have hn : normalizeOne symbol r = some (normalizeFields symbol r) := by
          simp only [normalizeOne, hd]
          rw [if_neg hz]
          simp [normalizeFields, hd]
        simp [hk, hn, ih]

theorem growthMapAux_getElem (records : List FundamentalRecord) (i : Nat)
    (l : List FundamentalRecord) (j : Nat) :
    (growthMapAux records i l)[j]? = (l[j]?).map (growthEntry records (i + j)) := by
  induction l generalizing i j with
  | nil => simp [growthMapAux]
  | cons r rest ih =>
    cases j with
    | zero => simp [growthMapAux]
    | succ j' =>
      simp only [growthMapAux, List.getElem?_cons_succ, ih (i + 1) j']
      have : i + 1 + j' = i + (j' + 1) := by omega
      rw [this]

/-- C7: over a date-ascending list of fundamental records all carrying a
null growth (as `mergeFundamentals` produces), `calculateRevenueGrowthYoy`
leaves the first four records' growth null; at index `i ≥ 4` it sets
`(revenue[i] − revenue[i−4]) / |revenue[i−4]| × 100` when both revenues are
known and the prior is non-zero, and leaves the growth null when the
prior-4 revenue is zero or unknown. -/
theorem calculateRevenueGrowthYoy_spec (records : List FundamentalRecord)
    (dateSorted : records.Pairwise (fun a b => a.date ≤ b.date))
    (hnull : ∀ r ∈ records, r.revenueGrowthYoy = none) :
    (∀ i r, records[i]? = some r → i < 4 →
      (calculateRevenueGrowthYoy records)[i]? = some r ∧ r.revenueGrowthYoy = none)
    ∧ (∀ i r prior p c, records[i]? = some r → records[i - 4]? = some prior → 4 ≤ i →
        prior.revenue = some p → r.revenue = some c → p ≠ 0 →
        (calculateRevenueGrowthYoy records)[i]?
          = some { r with revenueGrowthYoy := some (yoyGrowth p c) })
    ∧ (∀ i r prior, records[i]? = some r → records[i - 4]? = some prior → 4 ≤ i →
        (prior.revenue = none ∨ prior.revenue = some 0) →
        (calculateRevenueGrowthYoy records)[i]? = some r ∧ r.revenueGrowthYoy = none) := by
  refine ⟨?_, ?_, ?_⟩
  · intro i r hir hi4
    have hout := growthMapAux_getElem records 0 records i
    rw [hir] at hout
    simp only [Nat.zero_add] at hout
    constructor
    · rw [calculateRevenueGrowthYoy, hout, Option.map_some']
      simp [growthEntry, hi4]
    · obtain ⟨hlt, hget⟩ := List.getElem?_eq_some_iff.1 hir
      exact hnull r (hget ▸ List.getElem_mem hlt)
  · intro i r prior p c hir hprior hi4 hp hc hpne
    have hout := growthMapAux_getElem records 0 records i
    rw [hir] at hout
    simp only [Nat.zero_add] at hout
    rw [calculateRevenueGrowthYoy, hout, Option.map_some']
    have hni4 : ¬ i < 4 := by omega
    simp only [growthEntry, if_neg hni4, hprior, hp, hc]
    rw [if_neg hpne]
  · intro i r prior hir hprior hi4 hzero
    have hout := growthMapAux_getElem records 0 records i
    rw [hir] at hout
    simp only [Nat.zero_add] at hout
    have hni4 : ¬ i < 4 := by omega
    constructor
    · rw [calculateRevenueGrowthYoy, hout, Option.map_some']
      rcases hzero with hz | hz
      · simp [growthEntry, hni4, hprior, hz]
      · cases hcr : r.revenue with
        | none => simp [growthEntry, hni4, hprior, hz, hcr]
        | some cv => simp [growthEntry, hni4, hprior, hz, hcr]
    · obtain ⟨hlt, hget⟩ := List.getElem?_eq_some_iff.1 hir
      exact hnull r (hget ▸ List.getElem_mem hlt)

/-- Quarterly fundamental record with only a revenue, for scenarios. -/
def wFund (d : Nat) (rev : Option Int) : FundamentalRecord :=
  ⟨"AAPL", d * dayMs, none, none, none, none, rev, none, none, none, none⟩

/-- Five chronological fundamental records. -/
def wFundRecs : List FundamentalRecord :=
  [wFund 0 (some 10), wFund 90 none, wFund 180 (some 0), wFund 270 none,
   wFund 360 (some 15)]

/-- Concrete run of `calculateRevenueGrowthYoy_spec`: record 0 keeps a null
growth, record 4 gets the YoY growth against record 0. -/
theorem calculateRevenueGrowthYoy_spec_witness :
    (calculateRevenueGrowthYoy wFundRecs)[0]? = some (wFund 0 (some 10))
      ∧ (wFund 0 (some 10)).revenueGrowthYoy = none
      ∧ (calculateRevenueGrowthYoy wFundRecs)[4]?
        = some { wFund 360 (some 15) with revenueGrowthYoy := some (yoyGrowth 10 15) } := by
  have h := calculateRevenueGrowthYoy_spec wFundRecs (by decide) (by decide)
  have h1 := h.1 0 (wFund 0 (some 10)) rfl (by decide)
  have h2 := h.2.1 4 (wFund 360 (some 15)) (wFund 0 (some 10)) 10 15 rfl rfl
    (by decide) rfl rfl (by decide)
  exact ⟨h1.1, h1.2, h2⟩

/-- C5: `syncStock` is total (the model returns a `SyncResult`, never an
exception); its `errors` list is empty or a single captured message; every
`fetchHistoricalData` failure is captured verbatim; HTTP 429, 401/403,
connection failure and timeout produce their four pairwise-distinct error
strings, and an injected database failure is captured too. -/
theorem syncStock_captures_failures
    (db : List StockPriceRow) (apiKey : String) (failAt : Option Nat)
    (failCause : String) (symbol : String) (message : String)
    (hnorm : jsTrim (jsToUpper symbol) = symbol) (hsym : symbol ≠ "")
    (hkey : apiKey ≠ "") :
    (∀ response, (syncStock db apiKey response failAt failCause symbol).1.errors = []
      ∨ ∃ s, (syncStock db apiKey response failAt failCause symbol).1.errors = [s])
    ∧ (∀ response e, fetchHistoricalData apiKey response symbol = .error e →
        (syncStock db apiKey response failAt failCause symbol).1.errors = [e.message])
    ∧ (syncStock db apiKey (.httpStatus 429 message) failAt failCause symbol).1.errors
        = [rateLimitMessage]
    ∧ (syncStock db apiKey (.httpStatus 401 message) failAt failCause symbol).1.errors
        = [authErrorMessage]
    ∧ (syncStock db apiKey (.httpStatus 403 message) failAt failCause symbol).1.errors
        = [authErrorMessage]
    ∧ (syncStock db apiKey .connectionError failAt failCause symbol).1.errors
        = [networkErrorMessage]
    ∧ (syncStock db apiKey .timeout failAt failCause symbol).1.errors
        = [timeoutMessage]
    ∧ (rateLimitMessage ≠ authErrorMessage ∧ rateLimitMessage ≠ networkErrorMessage
       ∧ rateLimitMessage ≠ timeoutMessage ∧ authErrorMessage ≠ networkErrorMessage
       ∧ authErrorMessage ≠ timeoutMessage ∧ networkErrorMessage ≠ timeoutMessage) := by
  have hcap : ∀ response e, fetchHistoricalData apiKey response symbol = .error e →
      (syncStock db apiKey response failAt failCause symbol).1.errors = [e.message] := by
    intro response e hfe
    simp only [syncStock, hnorm, hfe]
  have h429 : fetchHistoricalData apiKey (.httpStatus 429 message) symbol
      = .error ⟨rateLimitMessage, "RATE_LIMIT", some 429⟩ := by
    simp [fetchHistoricalData, hnorm, hsym, hkey]
  have h401 : fetchHistoricalData apiKey (.httpStatus 401 message) symbol
      = .error ⟨authErrorMessage, "AUTH_ERROR", some 401⟩ := by
    simp [fetchHistoricalData, hnorm, hsym, hkey]
  have h403 : fetchHistoricalData apiKey (.httpStatus 403 message) symbol
      = .error ⟨authErrorMessage, "AUTH_ERROR", some 403⟩ := by
    simp [fetchHistoricalData, hnorm, hsym, hkey]
  have hconn : fetchHistoricalData apiKey .connectionError symbol
      = .error ⟨networkErrorMessage, "NETWORK_ERROR", none⟩ := by
    simp [fetchHistoricalData, hnorm, hsym, hkey]
  have htime : fetchHistoricalData apiKey .timeout symbol
      = .error ⟨timeoutMessage, "TIMEOUT", none⟩ := by
    simp [fetchHistoricalData, hnorm, hsym, hkey]
  refine ⟨?_, hcap, hcap _ _ h429, hcap _ _ h401, hcap _ _ h403, hcap _ _ hconn,
    hcap _ _ htime, by decide⟩
  intro response
  cases hfe : fetchHistoricalData apiKey response symbol with
  | error e =>
    right
    exact ⟨e.message, hcap response e hfe⟩
  | ok data =>
    simp only [syncStock, hnorm, hfe]
    by_cases hlen : data.length > 0
    · rw [if_pos hlen]
      cases hsv : (saveToDatabase db symbol data failAt failCause).2.2 with
      | some e =>
        right
        exact ⟨e.message, by simp only [hsv]⟩
      | none =>
        left
        simp only [hsv]
    · rw [if_neg hlen]
      left
      rfl

/-- Concrete run of `syncStock_captures_failures`: a 429 and a timeout each
land as their own single error string, and those strings differ. -/
theorem syncStock_captures_failures_witness :
    (syncStock [] "KEY" (.httpStatus 429 "m") none "boom" "AAPL").1.errors
        = [rateLimitMessage]
      ∧ (syncStock [] "KEY" .timeout none "boom" "AAPL").1.errors = [timeoutMessage]
      ∧ rateLimitMessage ≠ timeoutMessage := by
  obtain ⟨-, -, h429, -, -, -, htime, -, -, hd, -⟩ :=
    syncStock_captures_failures [] "KEY" none "boom" "AAPL" "m" rfl (by decide) (by decide)
  exact ⟨h429, htime, hd⟩

theorem saveBatchesAux_fail (bs : List (List StockPriceRow)) (db : List StockPriceRow)
    (i k : Nat) (failCause : String) (hik : i ≤ k) (hk : k - i < bs.length) :
    (saveBatchesAux db bs i (some k) failCause).2.1
        = (bs.take (k - i)).foldl applyBatch db
      ∧ (saveBatchesAux db bs i (some k) failCause).2.2
        = some ⟨databaseErrorMessage failCause, "DATABASE_ERROR", none⟩ := by
  induction bs generalizing db i with
  | nil => simp at hk
  | cons b rest ih =>
    by_cases hi : i = k
    · simp [saveBatchesAux, hi]
    · have hne : ¬ ((some k : Option Nat) = some i) := by
        intro h
        exact hi (Option.some.inj h).symm
      have hik' : i + 1 ≤ k := by omega
      have hk' : k - (i + 1) < rest.length := by
        simp only [List.length_cons] at hk
        omega
      have htake : (b :: rest).take (k - i) = b :: rest.take (k - (i + 1)) := by
        have : k - i = (k - (i + 1)) + 1 := by omega
        rw [this, List.take_succ_cons]
      obtain ⟨ih1, ih2⟩ := ih (applyBatch db b) (i + 1) hik' hk'
      refine ⟨?_, ?_⟩
      · simp only [saveBatchesAux, if_neg hne, htake, List.foldl_cons]
        exact ih1
      · simp only [saveBatchesAux, if_neg hne]
        exact ih2

/-- C8: with records saved in fixed batches of 100, a database failure at
batch `k` makes `saveToDatabase` abort with the `DATABASE_ERROR` message
while batches `0..k-1` stay committed in the store; `syncStock` captures
that message into `errors` and reports `recordsSaved = 0` even though
earlier batches persisted. -/
theorem syncStock_batch_failure_partial_persistence
    (db : List StockPriceRow) (apiKey : String) (raw : List FMPHistoricalPrice)
    (k : Nat) (failCause : String) (symbol : String)
    (hnorm : jsTrim (jsToUpper symbol) = symbol) (hsym : symbol ≠ "")
    (hkey : apiKey ≠ "")
    (hk : k < (batches BATCH_SIZE (validateAndNormalize symbol raw)).length) :
    (syncStock db apiKey (.arr raw) (some k) failCause symbol).1.errors
        = [databaseErrorMessage failCause]
      ∧ (syncStock db apiKey (.arr raw) (some k) failCause symbol).1.recordsSaved = 0
      ∧ (syncStock db apiKey (.arr raw) (some k) failCause symbol).1.recordsFetched
        = raw.length
      ∧ (syncStock db apiKey (.arr raw) (some k) failCause symbol).2
        = ((batches BATCH_SIZE (validateAndNormalize symbol raw)).take k).foldl
            applyBatch db := by
  have hvne : validateAndNormalize symbol raw ≠ [] := by
    intro h
    rw [h] at hk
    simp [batches, BATCH_SIZE] at hk
  have hrne : raw.length > 0 := by
    cases raw with
    | nil => exact absurd rfl hvne
    | cons a l => simp
  have hfe : fetchHistoricalData apiKey (.arr raw) symbol = .ok raw := by
    simp [fetchHistoricalData, hnorm, hsym, hkey]
  have hsave := saveBatchesAux_fail (batches BATCH_SIZE (validateAndNormalize symbol raw))
    db 0 k failCause (Nat.zero_le k) (by simpa using hk)
  have hsv : saveToDatabase db symbol raw (some k) failCause
      = saveBatchesAux db (batches BATCH_SIZE (validateAndNormalize symbol raw)) 0
          (some k) failCause := by
    simp only [saveToDatabase, hnorm]
    rw [if_neg (by omega), if_neg ?_]
    · intro h
      exact hvne (List.length_eq_zero.1 h)
  simp only [syncStock, hnorm, hfe, if_pos hrne, hsv, hsave.2]
  exact ⟨trivial, trivial, trivial, hsave.1⟩

/-- 101 valid raw records: two batches of 100 and 1. -/
def wRaw : List FMPHistoricalPrice :=
  (List.range 101).map (fun i =>
    ⟨.valid (i * dayMs), .num 1, .num 1, .num 1, .num 1, .num 0, .num 0, .num 0, .num 1⟩)

/-- Concrete run of `syncStock_batch_failure_partial_persistence`: batch 1
of the 101-record sync fails, the database error is captured, zero records
are reported saved, and the store holds exactly the first committed batch. -/
theorem syncStock_batch_failure_witness :
    (syncStock [] "KEY" (.arr wRaw) (some 1) "boom" "AAPL").1.errors
        = [databaseErrorMessage "boom"]
      ∧ (syncStock [] "KEY" (.arr wRaw) (some 1) "boom" "AAPL").1.recordsSaved = 0
      ∧ (syncStock [] "KEY" (.arr wRaw) (some 1) "boom" "AAPL").1.recordsFetched = 101
      ∧ (syncStock [] "KEY" (.arr wRaw) (some 1) "boom" "AAPL").2
        = ((batches BATCH_SIZE (validateAndNormalize "AAPL" wRaw)).take 1).foldl
            applyBatch [] := by
  have h := syncStock_batch_failure_partial_persistence [] "KEY" wRaw 1 "boom" "AAPL"
    rfl (by decide) (by decide) (by with_unfolding_all decide)
  exact ⟨h.1, h.2.1, h.2.2.1.trans (by with_unfolding_all decide), h.2.2.2⟩

theorem queryDatabase_strict (db : List StockPriceRow) (symbol : String)
    (fromMs toMs : Nat) (h : (db.map (fun r => (r.symbol, r.date))).Nodup) :
    (queryDatabase db symbol fromMs toMs).Pairwise (fun a b => a.date < b.date) := by
  have hsub : List.Sublist (db.filter (fun r => decide (r.symbol = symbol)
      && decide (fromMs ≤ r.date) && decide (r.date ≤ toMs))) db := List.filter_sublist db
  have hnd : ((db.filter (fun r => decide (r.symbol = symbol) && decide (fromMs ≤ r.date)
      && decide (r.date ≤ toMs))).map (fun r => (r.symbol, r.date))).Nodup :=
    h.sublist (hsub.map _)
  have hpairs : (db.filter (fun r => decide (r.symbol = symbol) && decide (fromMs ≤ r.date)
      && decide (r.date ≤ toMs))).Pairwise
        (fun a b => (a.symbol, a.date) ≠ (b.symbol, b.date)) := by
    rw [List.Nodup, List.pairwise_map] at hnd
    exact hnd
  have hsymeq : ∀ r ∈ db.filter (fun r => decide (r.symbol = symbol)
      && decide (fromMs ≤ r.date) && decide (r.date ≤ toMs)), r.symbol = symbol := by
    intro r hr
    have hp := (List.mem_filter.1 hr).2
    simp only [Bool.and_eq_true, decide_eq_true_eq] at hp
    exact hp.1.1
  have hdates : (db.filter (fun r => decide (r.symbol = symbol) && decide (fromMs ≤ r.date)
      && decide (r.date ≤ toMs))).Pairwise (fun a b => a.date ≠ b.date) := by
    refine hpairs.imp_of_mem ?_
    intro a b ha hb hne hd
    exact hne (by rw [hsymeq a ha, hsymeq b hb, hd])
  exact sortByKey_strict _ _ hdates

theorem convert_pairwise (l : List StockPriceRow)
    (h : l.Pairwise (fun a b => a.date < b.date)) :
    (convertPrismaToStockPriceData l).Pairwise (fun a b => a.date < b.date) := by
  rw [convertPrismaToStockPriceData, List.pairwise_map]
  exact h

theorem getHistoricalFromDb_strict (env : Env) (nsym ntf : String)
    (hdb : (env.db.map (fun r => (r.symbol, r.date))).Nodup)
    (hpost : (env.postSyncDb.map (fun r => (r.symbol, r.date))).Nodup) :
    (getHistoricalFromDb env nsym ntf).Pairwise (fun a b => a.date < b.date) := by
  simp only [getHistoricalFromDb]
  refine convert_pairwise _ ?_
  split
  · split
    · split
      · exact queryDatabase_strict _ _ _ _ hpost
      · exact queryDatabase_strict _ _ _ _ hdb
    · exact queryDatabase_strict _ _ _ _ hdb
  · exact queryDatabase_strict _ _ _ _ hdb

/-- C1: for every ambient state whose cache entries are strictly ascending
(the invariant the cache writes maintain) and whose stores satisfy the
`(symbol, date)` unique index, a successful `getHistoricalData` returns a
sequence strictly ascending by date (hence with no duplicate dates) — on
the cache-hit path, the database path, and the re-query-after-sync path
alike. -/
theorem getHistoricalData_strictly_ascending (env : Env) (symbol : String)
    (tf : Timeframe) (out : List StockPriceData)
    (hcache : ∀ k l, cacheLookup env.historyCache k = some l →
      l.Pairwise (fun a b => a.date < b.date))
    (hdb : (env.db.map (fun r => (r.symbol, r.date))).Nodup)
    (hpost : (env.postSyncDb.map (fun r => (r.symbol, r.date))).Nodup)
    (hout : getHistoricalData env symbol tf.str = .ok out) :
    out.Pairwise (fun a b => a.date < b.date) := by
  have hvalid : isValidTimeframe (jsToUpper tf.str) = true := by
    cases tf <;> decide
  simp only [getHistoricalData, hvalid, not_true, if_false] at hout
  cases hc : cacheLookup env.historyCache
      (buildStockHistoryKey (jsTrim (jsToUpper symbol)) (jsToUpper tf.str)) with
  | some cached =>
    rw [hc] at hout
    dsimp only at hout
    by_cases hlen : cached.length > 0
    · rw [if_pos hlen] at hout
      have : out = cached := (Except.ok.inj hout).symm
      rw [this]
      exact hcache _ _ hc
    · rw [if_neg hlen] at hout
      have : out = getHistoricalFromDb env (jsTrim (jsToUpper symbol)) (jsToUpper tf.str) :=
        (Except.ok.inj hout).symm
      rw [this]
      exact getHistoricalFromDb_strict env _ _ hdb hpost
  | none =>
    rw [hc] at hout
    dsimp only at hout
    have : out = getHistoricalFromDb env (jsTrim (jsToUpper symbol)) (jsToUpper tf.str) :=
      (Except.ok.inj hout).symm
    rw [this]
    exact getHistoricalFromDb_strict env _ _ hdb hpost

/-- Clock at day 100, year started at day 90. -/
def wClock : Clock := ⟨100 * dayMs, 100 * dayMs, 90 * dayMs, 0⟩

/-- Two stored rows inside the 1W window. -/
def wDbRows : List StockPriceRow := [sampleRow 99, sampleRow 100]

/-- State with an empty cache, two stored rows and a throwing sync. -/
def wEnv : Env := ⟨[], [], wDbRows, [], none, wClock⟩

/-- The expected 1W result for `wEnv`. -/
def wOut : List StockPriceData :=
  [⟨99 * dayMs, 1, 1, 1, 1, 0, 0, 0, 1⟩, ⟨100 * dayMs, 1, 1, 1, 1, 0, 0, 0, 1⟩]

/-- Concrete run of `getHistoricalData_strictly_ascending` on `wEnv`. -/
theorem getHistoricalData_strictly_ascending_witness :
    wOut.Pairwise (fun a b => a.date < b.date) :=
  getHistoricalData_strictly_ascending wEnv "aapl" .oneW wOut
    (fun k l h => by simp [wEnv, cacheLookup] at h)
    (by decide) (by decide) (by with_unfolding_all rfl)

theorem char_toNat_ofNat (n : Nat) (h : Nat.isValidChar n) :
    (Char.ofNat n).toNat = n := by
  rw [Char.ofNat, dif_pos h]
  rfl

theorem char_toUpper_idem (c : Char) : c.toUpper.toUpper = c.toUpper := by
  simp only [Char.toUpper]
  by_cases h : c.toNat ≥ 97 ∧ c.toNat ≤ 122
  · rw [if_pos h]
    have hval : Nat.isValidChar (c.toNat - 32) := Or.inl (by omega)
    have ht : (Char.ofNat (c.toNat - 32)).toNat = c.toNat - 32 :=
      char_toNat_ofNat _ hval
    rw [if_neg]
    rw [ht]
    omega
  · rw [if_neg h, if_neg h]

theorem jsToUpper_idem (s : String) : jsToUpper (jsToUpper s) = jsToUpper s := by
  show String.mk (((String.mk (s.data.map Char.toUpper)).data).map Char.toUpper)
    = String.mk (s.data.map Char.toUpper)
  rw [show (String.mk (s.data.map Char.toUpper)).data = s.data.map Char.toUpper from rfl]
  rw [List.map_map]
  congr 1
  apply List.map_congr_left
  intro c _
  exact char_toUpper_idem c

/-- C10: `getPriceRatio` consults the ratio cache before any timeframe
validation.  For a timeframe outside the enum, a non-empty cached entry
under the pair key is returned with no `INVALID_TIMEFRAME` error; only
when the lookup misses (or holds an empty list) does the call fail, with
the `INVALID_TIMEFRAME` error raised by `getHistoricalData`. -/
theorem getPriceRatio_cache_before_validation (env : Env)
    (symbol1 symbol2 timeframe : String)
    (hinvalid : isValidTimeframe (jsToUpper timeframe) = false) :
    (∀ cached, cacheLookup env.ratioCache
          (buildPriceRatioKey (jsTrim (jsToUpper symbol1)) (jsTrim (jsToUpper symbol2))
            (jsToUpper timeframe)) = some cached
        → cached.length > 0
        → getPriceRatio env symbol1 symbol2 timeframe = .ok cached)
    ∧ (∀ cached, cacheLookup env.ratioCache
          (buildPriceRatioKey (jsTrim (jsToUpper symbol1)) (jsTrim (jsToUpper symbol2))
            (jsToUpper timeframe)) = some cached
        → ¬ cached.length > 0
        → ∃ e, getPriceRatio env symbol1 symbol2 timeframe = .error e
            ∧ e.code = "INVALID_TIMEFRAME")
    ∧ (cacheLookup env.ratioCache
          (buildPriceRatioKey (jsTrim (jsToUpper symbol1)) (jsTrim (jsToUpper symbol2))
            (jsToUpper timeframe)) = none
        → ∃ e, getPriceRatio env symbol1 symbol2 timeframe = .error e
            ∧ e.code = "INVALID_TIMEFRAME") := by
  have hcond : isValidTimeframe (jsToUpper (jsToUpper timeframe)) = false := by
    rw [jsToUpper_idem]
    exact hinvalid
  have hh : ∀ s, getHistoricalData env s (jsToUpper timeframe)
      = .error ⟨"Invalid timeframe: " ++ jsToUpper timeframe
          ++ ". Valid values: 5Y, 1Y, YTD, 1M, 1W", "INVALID_TIMEFRAME",
          some (jsTrim (jsToUpper s))⟩ := by
    intro s
    simp only [getHistoricalData, hcond]
    rw [if_pos (by simp)]
  have hunc : ∃ e, getPriceRatioUncached env (jsTrim (jsToUpper symbol1))
      (jsTrim (jsToUpper symbol2)) (jsToUpper timeframe) = .error e
      ∧ e.code = "INVALID_TIMEFRAME" := by
    refine ⟨⟨"Invalid timeframe: " ++ jsToUpper timeframe
        ++ ". Valid values: 5Y, 1Y, YTD, 1M, 1W", "INVALID_TIMEFRAME",
        some (jsTrim (jsToUpper (jsTrim (jsToUpper symbol1))))⟩, ?_, rfl⟩
    simp only [getPriceRatioUncached, hh]
  refine ⟨?_, ?_, ?_⟩
  · intro cached hc hlen
    simp only [getPriceRatio, hc]
    rw [if_pos hlen]
    rfl
  · intro cached hc hlen
    obtain ⟨e, he, hcode⟩ := hunc
    refine ⟨e, ?_, hcode⟩
    simp only [getPriceRatio, hc]
    rw [if_neg hlen]
    exact he
  · intro hc
    obtain ⟨e, he, hcode⟩ := hunc
    refine ⟨e, ?_, hcode⟩
    simp only [getPriceRatio, hc]
    exact he

/-- A cached ratio point. -/
def wRatioPoint : RatioData := ⟨100 * dayMs, 2, 4, 2⟩

/-- State whose ratio cache holds an entry under the invalid timeframe
`2Y`. -/
def wRatioEnv : Env :=
  ⟨[], [("stock:ratio:AAPL:MSFT:2Y", [wRatioPoint])], [], [], none, wClock⟩

/-- The same state with an empty ratio cache. -/
def wRatioEnvEmpty : Env := ⟨[], [], [], [], none, wClock⟩

/-- Concrete run of `getPriceRatio_cache_before_validation`: with timeframe
`2y` (outside the enum), the cached entry is served without validation,
and the cache miss fails with `INVALID_TIMEFRAME`. -/
theorem getPriceRatio_cache_before_validation_witness :
    getPriceRatio wRatioEnv "aapl" "msft" "2y" = .ok [wRatioPoint]
      ∧ ∃ e, getPriceRatio wRatioEnvEmpty "aapl" "msft" "2y" = .error e
          ∧ e.code = "INVALID_TIMEFRAME" := by
  refine ⟨?_, ?_⟩
  · exact (getPriceRatio_cache_before_validation wRatioEnv "aapl" "msft" "2y"
      (by decide)).1 [wRatioPoint] rfl (by decide)
  · exact (getPriceRatio_cache_before_validation wRatioEnvEmpty "aapl" "msft" "2y"
      (by decide)).2.2 rfl

theorem lastKeyed_eq_none (keyOf : α → Nat) (l : List α) (k : Nat)
    (h : ∀ x ∈ l, keyOf x ≠ k) : lastKeyed keyOf l k = none := by
  have hfil : l.filter (fun x => decide (keyOf x = k)) = [] :=
    List.filter_eq_nil_iff.2 (fun x hx => by simpa using h x hx)
  simp [lastKeyed, hfil]

theorem lastKeyed_of_pairwise (keyOf : α → Nat) (l : List α) (r : α)
    (h : l.Pairwise (fun a b => keyOf a ≠ keyOf b)) (hr : r ∈ l) :
    lastKeyed keyOf l (keyOf r) = some r := by
  induction l with
  | nil => simp at hr
  | cons x xs ih =>
    rcases List.mem_cons.1 hr with rfl | hr'
    · have hxs : xs.filter (fun y => decide (keyOf y = keyOf r)) = [] :=
        List.filter_eq_nil_iff.2 (fun y hy => by
          simpa using fun he => (List.rel_of_pairwise_cons h hy) he.symm)
      simp [lastKeyed, List.filter_cons, hxs]
    · have hx : keyOf x ≠ keyOf r := List.rel_of_pairwise_cons h hr'
      have hfil : (x :: xs).filter (fun y => decide (keyOf y = keyOf r))
          = xs.filter (fun y => decide (keyOf y = keyOf r)) := by
        simp [List.filter_cons, hx]
      rw [lastKeyed, hfil]
      exact ih (List.Pairwise.sublist (List.sublist_cons_self x xs) h) hr'

theorem lastKeyed_eq_mapGet (keyOf : α → Nat) (m : List (Nat × α)) (l : List α) (k : Nat)
    (hwf : MapWF keyOf m) (hperm : List.Perm l (mapValues m)) :
    lastKeyed keyOf l k = mapGet m k := by
  have hpw : l.Pairwise (fun a b => keyOf a ≠ keyOf b) :=
    (hperm.pairwise_iff (fun h => Ne.symm h)).2 (values_pairwise_ne_key keyOf m hwf)
  cases hg : mapGet m k with
  | some v =>
    have hkv : keyOf v = k := hwf.2 (k, v) (mem_of_mapGet_eq_some m k v hg)
    have hv : v ∈ l := hperm.mem_iff.2
      ((mem_values_iff keyOf m v hwf).2 (by rw [hkv]; exact hg))
    rw [← hkv]
    exact lastKeyed_of_pairwise keyOf l v hpw hv
  | none =>
    refine lastKeyed_eq_none keyOf l k ?_
    intro x hx he
    have hval := (mem_values_iff keyOf m x hwf).1 (hperm.mem_iff.1 hx)
    rw [he, hg] at hval
    exact Option.noConfusion hval

theorem spdKey_mono {a b : StockPriceData} (h : a.date ≤ b.date) :
    spdKey a ≤ spdKey b :=
  Nat.div_le_div_right h

theorem mergeMap_wf (oldData newData : List StockPriceData) :
    MapWF spdKey (buildDateMap spdKey (buildDateMap spdKey [] oldData) newData) :=
  MapWF.buildDateMap _ _ _ (MapWF.buildDateMap _ _ _ (MapWF.nil _))

theorem mergeAndDeduplicate_key_strict (oldData newData : List StockPriceData) :
    (mergeAndDeduplicate oldData newData).Pairwise (fun a b => spdKey a < spdKey b) := by
  have hwf := mergeMap_wf oldData newData
  have hperm : List.Perm (mergeAndDeduplicate oldData newData)
      (mapValues (buildDateMap spdKey (buildDateMap spdKey [] oldData) newData)) :=
    sortByKey_perm _ _
  have hne : (mergeAndDeduplicate oldData newData).Pairwise
      (fun a b => spdKey a ≠ spdKey b) :=
    (hperm.pairwise_iff (fun h => Ne.symm h)).2 (values_pairwise_ne_key spdKey _ hwf)
  have hle : (mergeAndDeduplicate oldData newData).Pairwise
      (fun a b => a.date ≤ b.date) := sortByKey_sorted _ _
  exact (hle.and hne).imp (fun h => lt_of_le_of_ne (spdKey_mono h.1) h.2)

theorem mapGet_mergeMap (oldData newData : List StockPriceData) (k : Nat) :
    mapGet (buildDateMap spdKey (buildDateMap spdKey [] oldData) newData) k
      = (lastKeyed spdKey newData k).or (lastKeyed spdKey oldData k) := by
  rw [mapGet_buildDateMap, mapGet_buildDateMap]
  have : mapGet ([] : List (Nat × StockPriceData)) k = none := rfl
  rw [this, Option.or_none]

/-- C4: `mergeAndDeduplicate` (dates keyed by UTC calendar day) is
idempotent — merging the merge result with `new` again changes nothing;
when `new` holds one record per day, any output record sharing a day with
a `new` record that also collides with `old` is exactly the `new` record
(new wins); and the output is strictly ascending by date with one record
per distinct calendar day. -/
theorem mergeAndDeduplicate_spec (oldData newData : List StockPriceData) :
    mergeAndDeduplicate (mergeAndDeduplicate oldData newData) newData
        = mergeAndDeduplicate oldData newData
      ∧ ((newData.map spdKey).Nodup →
          ∀ r ∈ newData, (∃ q ∈ oldData, spdKey q = spdKey r) →
            ∀ s ∈ mergeAndDeduplicate oldData newData, spdKey s = spdKey r → s = r)
      ∧ (mergeAndDeduplicate oldData newData).Pairwise (fun a b => a.date < b.date)
      ∧ (mergeAndDeduplicate oldData newData).Pairwise
          (fun a b => spdKey a ≠ spdKey b) := by
  have hwf1 := mergeMap_wf oldData newData
  have hperm1 : List.Perm (mergeAndDeduplicate oldData newData)
      (mapValues (buildDateMap spdKey (buildDateMap spdKey [] oldData) newData)) :=
    sortByKey_perm _ _
  have hkey := mergeAndDeduplicate_key_strict oldData newData
  have hdate : (mergeAndDeduplicate oldData newData).Pairwise
      (fun a b => a.date < b.date) := by
    refine hkey.imp ?_
    intro a b h
    by_contra hcon
    exact absurd (spdKey_mono (Nat.le_of_not_lt hcon)) (Nat.not_le_of_lt h)
  refine ⟨?_, ?_, hdate, hkey.imp (fun h => Nat.ne_of_lt h)⟩
  · -- idempotence
    have hwf2 := mergeMap_wf (mergeAndDeduplicate oldData newData) newData
    have hlookup : ∀ k,
        mapGet (buildDateMap spdKey
          (buildDateMap spdKey [] (mergeAndDeduplicate oldData newData)) newData) k
        = mapGet (buildDateMap spdKey (buildDateMap spdKey [] oldData) newData) k := by
      intro k
      rw [mapGet_mergeMap, mapGet_mergeMap]
      have hout : lastKeyed spdKey (mergeAndDeduplicate oldData newData) k
          = (lastKeyed spdKey newData k).or (lastKeyed spdKey oldData k) := by
        rw [lastKeyed_eq_mapGet spdKey _ _ k hwf1 hperm1, mapGet_mergeMap]
      rw [hout]
      cases lastKeyed spdKey newData k <;> rfl
    have hvalsperm := values_perm_of_lookup_eq spdKey _ _ hwf2 hwf1 hlookup
    have hperm2 : List.Perm
        (mergeAndDeduplicate (mergeAndDeduplicate oldData newData) newData)
        (mergeAndDeduplicate oldData newData) :=
      ((sortByKey_perm _ _).trans hvalsperm).trans hperm1.symm
    refine eq_of_perm_of_strictSorted (fun item => item.date) _ _ hperm2 ?_ hdate
    have hkey2 := mergeAndDeduplicate_key_strict (mergeAndDeduplicate oldData newData)
      newData
    refine hkey2.imp ?_
    intro a b h
    by_contra hcon
    exact absurd (spdKey_mono (Nat.le_of_not_lt hcon)) (Nat.not_le_of_lt h)
  · -- new wins
    intro hnew r hr _ s hs hks
    have hnewpw : newData.Pairwise (fun a b => spdKey a ≠ spdKey b) := by
      rw [List.Nodup, List.pairwise_map] at hnew
      exact hnew
    have hgr : mapGet (buildDateMap spdKey (buildDateMap spdKey [] oldData) newData)
        (spdKey r) = some r := by
      rw [mapGet_mergeMap, lastKeyed_of_pairwise spdKey newData r hnewpw hr]
      rfl
    have hgs : mapGet (buildDateMap spdKey (buildDateMap spdKey [] oldData) newData)
        (spdKey s) = some s :=
      (mem_values_iff spdKey _ s hwf1).1 (hperm1.mem_iff.1 hs)
    rw [hks, hgr] at hgs
    exact (Option.some.inj hgs).symm

/-- One old record on day 2. -/
def wOld : List StockPriceData := [⟨2 * dayMs, 1, 1, 1, 1, 0, 0, 0, 1⟩]

/-- The new record colliding on day 2. -/
def wNewRec : StockPriceData := ⟨2 * dayMs, 2, 2, 2, 2, 0, 0, 0, 2⟩

/-- New data: the colliding record plus a fresh day-1 record. -/
def wNew : List StockPriceData := [wNewRec, ⟨1 * dayMs, 3, 3, 3, 3, 0, 0, 0, 3⟩]

/-- Concrete run of `mergeAndDeduplicate_spec`: idempotence on a colliding
merge, and the day-2 output record is the new one. -/
theorem mergeAndDeduplicate_spec_witness :
    mergeAndDeduplicate (mergeAndDeduplicate wOld wNew) wNew
        = mergeAndDeduplicate wOld wNew
      ∧ (∀ s ∈ mergeAndDeduplicate wOld wNew, spdKey s = spdKey wNewRec → s = wNewRec) := by
  have h := mergeAndDeduplicate_spec wOld wNew
  exact ⟨h.1, h.2.1 (by decide) wNewRec (by decide)
    ⟨⟨2 * dayMs, 1, 1, 1, 1, 0, 0, 0, 1⟩, by decide, rfl⟩⟩

/-- Claim-side C3 emission rule: the ratio point for a `data1` item whose
calendar day occurs in `data2` with a non-zero close; division-by-zero
days yield nothing. -/
def ratioEmit (data2 : List StockPriceData) (item1 : StockPriceData) : Option RatioData :=
  match data2.find? (fun item2 => decide (spdKey item2 = spdKey item1)) with
  | some item2 =>
    if item2.close ≠ 0 then
      some ⟨item1.date, item1.close / item2.close, item1.close, item2.close⟩
    else none
  | none => none

theorem lastKeyed_eq_find? (keyOf : α → Nat) (l : List α) (k : Nat)
    (h : l.Pairwise (fun a b => keyOf a ≠ keyOf b)) :
    lastKeyed keyOf l k = l.find? (fun x => decide (keyOf x = k)) := by
  induction l with
  | nil => rfl
  | cons x xs ih =>
    have htail := List.Pairwise.sublist (List.sublist_cons_self x xs) h
    by_cases hx : keyOf x = k
    · have hxs : xs.filter (fun y => decide (keyOf y = k)) = [] :=
        List.filter_eq_nil_iff.2 (fun y hy => by
          simpa using fun he => (List.rel_of_pairwise_cons h hy) (hx.trans he.symm))
      simp [lastKeyed, List.filter_cons, hx, hxs, List.find?_cons]
    · have hfil : (x :: xs).filter (fun y => decide (keyOf y = k))
          = xs.filter (fun y => decide (keyOf y = k)) := by
        simp [List.filter_cons, hx]
      rw [lastKeyed, hfil, List.find?_cons]
      have hdx : (decide (keyOf x = k)) = false := by simp [hx]
      rw [hdx]
      exact ih htail

theorem mapGet_singleMap (data2 : List StockPriceData) (k : Nat)
    (h2 : data2.Pairwise (fun a b => spdKey a ≠ spdKey b)) :
    mapGet (buildDateMap spdKey [] data2) k
      = data2.find? (fun x => decide (spdKey x = k)) := by
  rw [mapGet_buildDateMap]
  have hnil : mapGet ([] : List (Nat × StockPriceData)) k = none := rfl
  rw [hnil, Option.or_none]
  exact lastKeyed_eq_find? spdKey data2 k h2

theorem ratioEmit_date (data2 : List StockPriceData) (a : StockPriceData)
    (p : RatioData) (hp : p ∈ ratioEmit data2 a) : p.date = a.date := by
  unfold ratioEmit at hp
  cases hfind : data2.find? (fun item2 => decide (spdKey item2 = spdKey a)) with
  | some b =>
    rw [hfind] at hp
    dsimp only at hp
    by_cases hc : b.close ≠ 0
    · rw [if_pos hc] at hp
      cases hp
      rfl
    · rw [if_neg hc] at hp
      cases hp
  | none =>
    rw [hfind] at hp
    dsimp only at hp
    cases hp

theorem length_filterMap_le_filter (l : List α) (f : α → Option β) (p : α → Bool)
    (h : ∀ a, (f a).isSome → p a = true) :
    (l.filterMap f).length ≤ (l.filter p).length := by
  induction l with
  | nil => simp
  | cons a t ih =>
    cases hf : f a with
    | some b =>
      have hp : p a = true := h a (by simp [hf])
      rw [List.filterMap_cons_some hf, List.filter_cons, if_pos hp]
      simpa using ih
    | none =>
      rw [List.filterMap_cons_none hf, List.filter_cons]
      by_cases hp : p a = true
      · rw [if_pos hp]
        exact Nat.le_succ_of_le ih
      · rw [if_neg hp]
        exact ih

theorem computeRatios_eq_emit (data1 data2 : List StockPriceData)
    (h1 : data1.Pairwise (fun a b => spdKey a < spdKey b))
    (h2 : data2.Pairwise (fun a b => spdKey a ≠ spdKey b)) :
    computeRatios data1 data2 = data1.filterMap (ratioEmit data2) := by
  have hfun : ∀ item1 ∈ data1,
      (match mapGet (buildDateMap spdKey [] data2) (getDateKey item1.date) with
       | some item2 =>
         if item2.close ≠ 0 then
           some (⟨item1.date, item1.close / item2.close, item1.close, item2.close⟩ :
             RatioData)
         else none
       | none => none) = ratioEmit data2 item1 := by
    intro item1 _
    rw [show getDateKey item1.date = spdKey item1 from rfl,
      mapGet_singleMap data2 (spdKey item1) h2]
    rfl
  have hbody := List.filterMap_congr hfun
  have hsorted : (data1.filterMap (ratioEmit data2)).Pairwise
      (fun q r => q.date ≤ r.date) := by
    refine List.Pairwise.filterMap (ratioEmit data2) ?_ h1
    intro a a' hlt q hq r hr
    rw [ratioEmit_date data2 a q hq, ratioEmit_date data2 a' r hr]
    by_contra hcon
    have : a'.date ≤ a.date := Nat.le_of_not_lt (fun hdd => hcon (Nat.le_of_lt hdd))
    exact absurd (spdKey_mono this) (Nat.not_le_of_lt hlt)
  calc computeRatios data1 data2
      = sortByKey (fun item => item.date) (data1.filterMap (ratioEmit data2)) := by
        simp only [computeRatios]
        rw [hbody]
    _ = data1.filterMap (ratioEmit data2) := sortByKey_eq_of_sorted _ _ hsorted

/-- C3: for strictly day-ascending input series (as `getHistoricalData`
returns), the ratio sequence is at most `min |A| |B|` long; every emitted
point satisfies `ratio = symbol1Price / symbol2Price` with
`symbol2Price ≠ 0`; and the result emits exactly one point for each item
of series A whose calendar day occurs in series B with a non-zero close
(zero-close days are silently skipped). -/
theorem computeRatios_spec (data1 data2 : List StockPriceData)
    (h1 : data1.Pairwise (fun a b => spdKey a < spdKey b))
    (h2 : data2.Pairwise (fun a b => spdKey a < spdKey b)) :
    (computeRatios data1 data2).length ≤ min data1.length data2.length
    ∧ (∀ q ∈ computeRatios data1 data2,
        q.ratio = q.symbol1Price / q.symbol2Price ∧ q.symbol2Price ≠ 0)
    ∧ computeRatios data1 data2 = data1.filterMap (ratioEmit data2) := by
  have h2ne : data2.Pairwise (fun a b => spdKey a ≠ spdKey b) :=
    h2.imp (fun h => Nat.ne_of_lt h)
  have heq := computeRatios_eq_emit data1 data2 h1 h2ne
  refine ⟨?_, ?_, heq⟩
  · rw [heq]
    refine Nat.le_min.2 ⟨List.length_filterMap_le _ _, ?_⟩
    have hle1 : (data1.filterMap (ratioEmit data2)).length
        ≤ (data1.filter (fun a =>
            (data2.find? (fun b => decide (spdKey b = spdKey a))).isSome)).length := by
      refine length_filterMap_le_filter _ _ _ ?_
      intro a ha
      unfold ratioEmit at ha
      cases hfind : data2.find? (fun b => decide (spdKey b = spdKey a)) with
      | none =>
        rw [hfind] at ha
        simp at ha
      | some b =>
        simp [hfind]
    have hsubl : List.Sublist (data1.filter (fun a =>
        (data2.find? (fun b => decide (spdKey b = spdKey a))).isSome)) data1 :=
      List.filter_sublist data1
    have hnodup : ((data1.filter (fun a =>
        (data2.find? (fun b => decide (spdKey b = spdKey a))).isSome)).map spdKey).Nodup := by
      have hpw := h1.sublist hsubl
      exact (List.pairwise_map).2 (hpw.imp (fun h => Nat.ne_of_lt h))
    have hsubset : ∀ k ∈ (data1.filter (fun a =>
        (data2.find? (fun b => decide (spdKey b = spdKey a))).isSome)).map spdKey,
        k ∈ data2.map spdKey := by
      intro k hk
      obtain ⟨a, ha, rfl⟩ := List.mem_map.1 hk
      have hpa := (List.mem_filter.1 ha).2
      rw [Option.isSome_iff_exists] at hpa
      obtain ⟨b, hb⟩ := hpa
      have hbmem := List.mem_of_find?_eq_some hb
      have hbk : spdKey b = spdKey a := by simpa using List.find?_some hb
      exact List.mem_map.2 ⟨b, hbmem, hbk⟩
    calc (data1.filterMap (ratioEmit data2)).length
        ≤ (data1.filter (fun a =>
            (data2.find? (fun b => decide (spdKey b = spdKey a))).isSome)).length := hle1
      _ = ((data1.filter (fun a =>
            (data2.find? (fun b => decide (spdKey b = spdKey a))).isSome)).map
              spdKey).length := (List.length_map _ _).symm
      _ ≤ (data2.map spdKey).length := (hnodup.subperm hsubset).length_le
      _ = data2.length := List.length_map _ _
  · intro q hq
    rw [heq] at hq
    obtain ⟨a, ha, hqa⟩ := List.mem_filterMap.1 hq
    unfold ratioEmit at hqa
    cases hfind : data2.find? (fun b => decide (spdKey b = spdKey a)) with
    | none =>
      rw [hfind] at hqa
      exact absurd hqa (by simp)
    | some b =>
      rw [hfind] at hqa
      dsimp only at hqa
      by_cases hc : b.close ≠ 0
      · rw [if_pos hc] at hqa
        cases hqa
        exact ⟨rfl, hc⟩
      · rw [if_neg hc] at hqa
        cases hqa

/-- Day-`d` price item with close `c`. -/
def wSPD (d : Nat) (c : ℚ) : StockPriceData := ⟨d * dayMs, c, c, c, c, 0, 0, 0, c⟩

/-- Series A: days 1-3. -/
def wA : List StockPriceData := [wSPD 1 10, wSPD 2 20, wSPD 3 30]

/-- Series B: days 2-4, with a zero close on day 3. -/
def wB : List StockPriceData := [wSPD 2 5, wSPD 3 0, wSPD 4 2]

/-- Concrete run of `computeRatios_spec` on overlapping series with a
zero-close day. -/
theorem computeRatios_spec_witness :
    (computeRatios wA wB).length ≤ min wA.length wB.length
      ∧ (∀ q ∈ computeRatios wA wB,
          q.ratio = q.symbol1Price / q.symbol2Price ∧ q.symbol2Price ≠ 0)
      ∧ computeRatios wA wB = wA.filterMap (ratioEmit wB) := by
  have h := computeRatios_spec wA wB (by decide) (by decide)
  exact ⟨h.1, h.2.1, h.2.2⟩
